import Mathlib

/-
Verification of the NFS file-handle and attribute-overlay component
(`FileTable.cpp` / `FileAttrDB`) of the Previous emulator fork.

The embedding below translates the component's data structures and
operations into pure Lean functions:
  * `std::map` / `std::set` become sorted association lists with the same
    lookup/insert/erase semantics,
  * the host filesystem (realpath, stat, fopen-for-write success) becomes
    an oracle `Host`,
  * the sidecar files on disk become an association list path -> contents,
  * each public `FileTable` operation becomes a state transformer on `Sys`.
Numbers are modelled as `Nat`/`Int` with explicit `% 2^32` / `% 2^64`
wrapping where the C code relies on fixed-width behavior.
-/

namespace FT

/-! ## Association lists (model of `std::map`, keys kept sorted) -/

def alookup {α β : Type} [DecidableEq α] : List (α × β) → α → Option β
  | [], _ => none
  | (k, v) :: t, a => if k = a then some v else alookup t a

/-- Boolean strict order on keys (`std::less`), kept as an explicit function
so that terms evaluate inside the kernel. -/
class KLt (α : Type) where
  kltb : α → α → Bool

/-- Lexicographic byte order on strings, the order of `std::less<string>`. -/
def sltb (a b : String) : Bool := (String.decLt a b).decide

instance : KLt String := ⟨sltb⟩

instance : KLt Nat := ⟨Nat.blt⟩

/-- Insert or replace, keeping keys in increasing order (as `std::map` does;
iteration order below is therefore the C++ iteration order). -/
def aset {α β : Type} [DecidableEq α] [KLt α] :
    List (α × β) → α → β → List (α × β)
  | [], a, b => [(a, b)]
  | (k, v) :: t, a, b =>
      if a = k then (a, b) :: t
      else if KLt.kltb a k then (a, b) :: (k, v) :: t
      else (k, v) :: aset t a b

def aerase {α β : Type} [DecidableEq α] : List (α × β) → α → List (α × β)
  | [], _ => []
  | (k, v) :: t, a => if k = a then aerase t a else (k, v) :: aerase t a

/-! ## Characters and path helpers -/

/-- Whitespace in the sense of `isspace`, the class used by `fscanf`. -/
def isWS (c : Char) : Bool :=
  c = ' ' || c = '\t' || c = '\n' || c = '\x0d' || c = '\x0b' || c = '\x0c'

/-- Source `filename(path)` from the source: the suffix after the last `/` or `\`
(the whole string when neither occurs). -/
def filename (path : String) : String :=
  String.mk (path.toList.foldl
    (fun acc c => if c = '/' || c = '\\' then [] else acc ++ [c]) [])

def stripTrailingSlashes (cs : List Char) : List Char :=
  (cs.reverse.dropWhile (fun c => c = '/')).reverse

/-- POSIX `dirname(3)`, as called by `FileTable::GetDB` to key the
per-directory attribute stores. -/
def dirname (s : String) : String :=
  match stripTrailingSlashes s.toList with
  | [] => match s.toList with
          | '/' :: _ => "/"
          | _ => "."
  | cs =>
      let pre := (cs.reverse.dropWhile (fun c => c ≠ '/')).reverse
      match stripTrailingSlashes pre with
      | [] => match pre with
              | '/' :: _ => "/"
              | _ => "."
      | ds => String.mk ds

/-! ## Numeric print/parse (the `fprintf`/`fscanf` of `FileAttrs`) -/

def U32 : Nat := 4294967296
def I32MAX : Nat := 2147483648
def U64 : Nat := 18446744073709551616

def digitChar (d : Nat) : Char := Char.ofNat (48 + d)

def charVal (c : Char) : Nat := c.toNat - 48

def isOctDigit (c : Char) : Bool := decide ('0' ≤ c) && decide (c ≤ '7')

def isDecDigit (c : Char) : Bool := decide ('0' ≤ c) && decide (c ≤ '9')

/-- Base-`b` digits of `n`, least significant first, with explicit fuel so
that terms evaluate inside the kernel (`fuel = n` always suffices for
`b ≥ 2`). -/
def toDigitsRev (b : Nat) : Nat → Nat → List Nat
  | 0, _ => []
  | _ + 1, 0 => []
  | fuel + 1, n + 1 => ((n + 1) % b) :: toDigitsRev b fuel ((n + 1) / b)

/-- Digit string of `n` in base `b`, most significant first (`%o`/`%u` output). -/
def baseChars (b n : Nat) : List Char :=
  if n = 0 then ['0'] else (toDigitsRev b n n).reverse.map digitChar

def octChars (n : Nat) : List Char := baseChars 8 n
def decChars (n : Nat) : List Char := baseChars 10 n

/-- Source `%d` rendering of a `uint32_t` value (printed via its two's-complement
signed reading, which is what `fprintf("%d", uid)` does in the source). -/
def i32Chars (n : Nat) : List Char :=
  if n < I32MAX then decChars n else '-' :: decChars (U32 - n)

/-- Source `%d` rendering of a C `int` (the `reserved` field). -/
def intChars (i : Int) : List Char :=
  if i < 0 then '-' :: decChars (-i).toNat else decChars i.toNat

/-- Value of a digit string, big-endian, as accumulated by `fscanf`. -/
def digitsVal (b : Nat) (ds : List Char) : Nat :=
  ds.foldl (fun a c => a * b + charVal c) 0

def dropWS (cs : List Char) : List Char := cs.dropWhile isWS

/-- One `%o`/`%d` style conversion: skip whitespace, optional sign, at least
one digit; returns (sign, magnitude, rest of input). -/
def parseUnsigned (b : Nat) (isD : Char → Bool) (cs : List Char) :
    Option (Bool × Nat × List Char) :=
  let sgn : Bool × List Char :=
    match dropWS cs with
    | c :: t =>
        if c = '-' then (true, t)
        else if c = '+' then (false, t)
        else (false, c :: t)
    | [] => (false, [])
  let ds := sgn.2.takeWhile isD
  if ds.isEmpty then none
  else some (sgn.1, digitsVal b ds, sgn.2.dropWhile isD)

/-- Storing an optionally-negated magnitude into a 32-bit field (two's
complement wrap, as assignment to `uint32_t` does). -/
def toU32 (neg : Bool) (v : Nat) : Nat :=
  if neg then (U32 - v % U32) % U32 else v % U32

def parseOctU32 (cs : List Char) : Option (Nat × List Char) :=
  (parseUnsigned 8 isOctDigit cs).map (fun x => (toU32 x.1 x.2.1, x.2.2))

def parseDecU32 (cs : List Char) : Option (Nat × List Char) :=
  (parseUnsigned 10 isDecDigit cs).map (fun x => (toU32 x.1 x.2.1, x.2.2))

/-- Source `%d` into a C `int`: wrap to 32 bits, then read as signed. -/
def parseDecI32 (cs : List Char) : Option (Int × List Char) :=
  (parseUnsigned 10 isDecDigit cs).map (fun x =>
    (if toU32 x.1 x.2.1 < I32MAX then (toU32 x.1 x.2.1 : Int)
     else (toU32 x.1 x.2.1 : Int) - (U32 : Int), x.2.2))

/-- An ordinary (non-whitespace) character in the `fscanf` format string:
must match the next input character exactly. -/
def expectChar (c : Char) : List Char → Option (List Char)
  | [] => none
  | c2 :: t => if c2 = c then some t else none

/-- Source `%s`: skip whitespace, then at least one non-whitespace character. -/
def parseStr (cs : List Char) : Option (String × List Char) :=
  let cs1 := dropWS cs
  let nm := cs1.takeWhile (fun c => ! isWS c)
  if nm.isEmpty then none
  else some (String.mk nm, cs1.dropWhile (fun c => ! isWS c))

/-! ## AttributeRecord (`FileAttrs`) and the sidecar text format -/

/-- Source `FileAttrs`: all numeric fields are `uint32_t` (modelled as `Nat`,
wrapped mod 2^32 where assigned from parses) except `reserved : int`. -/
structure FileAttrs where
  mode : Nat
  uid : Nat
  gid : Nat
  size : Nat
  atime_sec : Nat
  atime_nsec : Nat
  mtime_sec : Nat
  mtime_nsec : Nat
  reserved : Int
deriving DecidableEq

/-- Source `FileAttrs::Valid`: a field value participates in the overlay unless it
is the sentinel `0xFFFFFFFF`. -/
def FileAttrs.Valid (statval : Nat) : Bool := statval ≠ 4294967295

/-- The single text line `FileAttrs::Write` emits:
`"0%o:%d:%d:%d:%s\n"` applied to mode, uid, gid, reserved, name. -/
def recordLine (nm : String) (r : FileAttrs) : List Char :=
  '0' :: (octChars r.mode ++ ':' :: (i32Chars r.uid ++ ':' :: (i32Chars r.gid ++
    ':' :: (intChars r.reserved ++ ':' :: (nm.toList ++ ['\n'])))))

/-- Source `FileAttrs(FILE*, string&)`: one `fscanf(fin, "0%o:%d:%d:%d:%s\n", ...)`.
Returns the parsed name, the record and the unconsumed input on full
success.  A failed or end-of-file scan is modelled as `none`; the loader
stops there (the source then sees an empty `fname` and breaks).  The
fields `size`, `atime_*` and `mtime_*` are **not** in the format string:
the constructor leaves them uninitialized, modelled as 0. -/
def parseRecord (cs : List Char) : Option (String × FileAttrs × List Char) :=
  match expectChar '0' cs with
  | none => none
  | some r1 =>
    match parseOctU32 r1 with
    | none => none
    | some (mode, r2) =>
      match expectChar ':' r2 with
      | none => none
      | some r3 =>
        match parseDecU32 r3 with
        | none => none
        | some (uid, r4) =>
          match expectChar ':' r4 with
          | none => none
          | some r5 =>
            match parseDecU32 r5 with
            | none => none
            | some (gid, r6) =>
              match expectChar ':' r6 with
              | none => none
              | some r7 =>
                match parseDecI32 r7 with
                | none => none
                | some (res, r8) =>
                  match expectChar ':' r8 with
                  | none => none
                  | some r9 =>
                    match parseStr r9 with
                    | none => none
                    | some (nm, r10) =>
                      some (nm, ⟨mode, uid, gid, 0, 0, 0, 0, 0, res⟩, dropWS r10)

/-- The read loop of the `FileAttrDB` constructor: parse records until one
yields an empty name.  Structural recursion on a fuel argument; the
wrapper below supplies enough fuel for any input (each successful parse
consumes at least one character). -/
def loadLoop : Nat → List Char → List (String × FileAttrs)
  | 0, _ => []
  | fuel + 1, cs =>
      match parseRecord cs with
      | none => []
      | some (nm, r, rest) => (nm, r) :: loadLoop fuel rest

def loadEntries (cs : List Char) : List (String × FileAttrs) :=
  loadLoop (cs.length + 1) cs

/-- The write/erase pass of `FileAttrDB::Write`: iterate the map in order,
emitting a line for each non-null record and erasing null entries instead
of writing them.  Returns (entries kept, file contents). -/
def writeLoop : List (String × Option FileAttrs) →
    List (String × Option FileAttrs) × List Char
  | [] => ([], [])
  | (nm, some r) :: t =>
      let rest := writeLoop t
      ((nm, some r) :: rest.1, recordLine nm r ++ rest.2)
  | (_, none) :: t => writeLoop t

/-- The fields of a record that survive a write/parse round trip (`size`,
`atime_*`, `mtime_*` are not persisted; the parse leaves them 0). -/
def persistedFields (r : FileAttrs) : FileAttrs :=
  ⟨r.mode, r.uid, r.gid, 0, 0, 0, 0, 0, r.reserved⟩

/-! ## Host filesystem oracle and the state of the coordinator -/

/-- The part of `struct stat` the component reads. -/
structure HostStat where
  st_dev : Nat
  st_ino : Nat
  st_mode : Nat
  st_uid : Nat
  st_gid : Nat
  st_size : Nat
  st_atime_sec : Nat
  st_atime_nsec : Nat
  st_mtime_sec : Nat
  st_mtime_nsec : Nat
deriving DecidableEq

/-- Source `FileAttrs(const struct stat*)`: every field copied, `reserved = 0`. -/
def FileAttrs.ofStat (st : HostStat) : FileAttrs :=
  ⟨st.st_mode, st.st_uid, st.st_gid, st.st_size, st.st_atime_sec,
   st.st_atime_nsec, st.st_mtime_sec, st.st_mtime_nsec, 0⟩

/-- Host filesystem oracle: `realpath` (`none` = resolution failure),
`stat` (`none` = failure), and whether `fopen(path, "w")` succeeds. -/
structure Host where
  realpath : String → Option String
  hstat : String → Option HostStat
  writeOk : String → Bool

/-- Source `canonicalize`: `realpath`, falling back to the input path unchanged
when resolution fails. -/
def canonicalize (host : Host) (path : String) : String :=
  match host.realpath path with
  | some rpath => rpath
  | none => path

def S_IFMT : Nat := 61440

def rotl64 (x n : Nat) : Nat :=
  (((x % U64) <<< n) ||| ((x % U64) >>> (64 - n))) % U64

/-- Source `make_file_handle`: `rotl(st_dev, 32) ^ st_ino`, with 0 remapped to
all-ones (`~0`). -/
def make_file_handle (st : HostStat) : Nat :=
  let r := rotl64 st.st_dev 32 ^^^ (st.st_ino % U64)
  if r = 0 then U64 - 1 else r

/-- A `FileAttrDB`: sidecar path and the `filename -> FileAttrs*` map.
A `none` value models a NULL pointer in the map (inserted by
`GetFileAttrs`'s use of `operator[]` on a miss). -/
structure FileAttrDB where
  dbpath : String
  attrs : List (String × Option FileAttrs)
deriving DecidableEq

/-- The `FileAttrDB` constructor: append `"/.nfsd_fattrs"` to the directory,
open the sidecar if present and insert parsed records until a parse
yields an empty name. -/
def mkDB (disk : List (String × String)) (directory : String) : FileAttrDB :=
  let p := directory ++ "/.nfsd_fattrs"
  match alookup disk p with
  | none => ⟨p, []⟩
  | some content =>
      ⟨p, (loadEntries content.toList).foldl
            (fun m nr => aset m nr.1 (some nr.2)) []⟩

/-- Source `FileAttrDB::GetFileAttrs`: `attrs[filename(path)]` — `operator[]`
default-inserts a NULL value when the key is missing. -/
def dbGetFileAttrs (db : FileAttrDB) (path : String) :
    Option FileAttrs × FileAttrDB :=
  let nm := filename path
  match alookup db.attrs nm with
  | some v => (v, db)
  | none => (none, ⟨db.dbpath, aset db.attrs nm none⟩)

/-- Source `FileAttrDB::SetFileAttrs`: reject `"."`/`".."`, else insert or update;
returns whether the store was marked dirty.  (When the existing map value
is a NULL placeholder the source calls `Update` through the null pointer —
undefined behavior; the model stores the new record.) -/
def dbSetFileAttrs (db : FileAttrDB) (path : String) (fattrs : FileAttrs) :
    FileAttrDB × Bool :=
  let nm := filename path
  if nm = "." || nm = ".." then (db, false)
  else (⟨db.dbpath, aset db.attrs nm (some fattrs)⟩, true)

/-- Source `FileAttrDB::Remove`: erase the entry if the key is present (whether or
not its value is NULL); returns whether the store was marked dirty. -/
def dbRemove (db : FileAttrDB) (path : String) : FileAttrDB × Bool :=
  let nm := filename path
  match alookup db.attrs nm with
  | some _ => (⟨db.dbpath, aerase db.attrs nm⟩, true)
  | none => (db, false)

/-- Source `FileAttrDB::Write`: only a store with at least one entry touches the
file; if `fopen(path, "w")` fails nothing is written and nothing erased. -/
def dbWrite (host : Host) (db : FileAttrDB) (disk : List (String × String)) :
    FileAttrDB × List (String × String) :=
  if db.attrs.length > 0 then
    if host.writeOk db.dbpath then
      let wl := writeLoop db.attrs
      (⟨db.dbpath, wl.1⟩, aset disk db.dbpath (String.mk wl.2))
    else (db, disk)
  else (db, disk)

/-- The whole mutable state: the coordinator's four containers plus the
host disk contents of the sidecar files (path -> file contents). -/
structure Sys where
  path2handle : List (String × Nat)
  handle2path : List (Nat × String)
  path2db : List (String × FileAttrDB)
  dirty : List String
  disk : List (String × String)
deriving DecidableEq

def initSys (disk0 : List (String × String)) : Sys :=
  ⟨[], [], [], [], disk0⟩

/-- Source `std::set` insertion for the dirty set (keyed by store directory, which
identifies the `FileAttrDB*` uniquely since stores are never evicted). -/
def dirtyInsert (l : List String) (k : String) : List String :=
  if l.contains k then l else l ++ [k]

/-- Source `FileTable::GetDB`: canonicalize, take `dirname`, return the cached
store or construct one lazily from the sidecar file. -/
def getDB (host : Host) (s : Sys) (path0 : String) :
    String × FileAttrDB × Sys :=
  let dbdir := dirname (canonicalize host path0)
  match alookup s.path2db dbdir with
  | some db => (dbdir, db, s)
  | none =>
      let db := mkDB s.disk dbdir
      (dbdir, db, { s with path2db := aset s.path2db dbdir db })

/-- Source `FileTable::GetFileAttrs`: `GetDB(path)->GetFileAttrs(path)` (note the
store lookup canonicalizes but the filename key uses the argument as
given, exactly as in the source). -/
def ftGetFileAttrs (host : Host) (s : Sys) (path : String) :
    Option FileAttrs × Sys :=
  match getDB host s path with
  | (dbdir, db, s1) =>
      match dbGetFileAttrs db path with
      | (res, db2) => (res, { s1 with path2db := aset s1.path2db dbdir db2 })

/-- Source `FileTable::SetFileAttrs`: `GetDB(path)->SetFileAttrs(path, fstat)`,
marking the store dirty on success. -/
def ftSetFileAttrs (host : Host) (s : Sys) (path : String) (fattrs : FileAttrs) :
    Sys :=
  match getDB host s path with
  | (dbdir, db, s1) =>
      match dbSetFileAttrs db path fattrs with
      | (db2, dirtied) =>
          let s2 := { s1 with path2db := aset s1.path2db dbdir db2 }
          if dirtied then { s2 with dirty := dirtyInsert s2.dirty dbdir } else s2

/-- Source `stat` overlay block of `FileTable::Stat` (applied whenever the store
returned a non-null record, regardless of the host stat result). -/
def statOverlay (fstat : HostStat) (attrs : Option FileAttrs) : HostStat :=
  match attrs with
  | none => fstat
  | some a =>
      { fstat with
        st_mode := if FileAttrs.Valid a.mode then a.mode ||| (fstat.st_mode &&& S_IFMT)
                   else fstat.st_mode,
        st_uid := if FileAttrs.Valid a.uid then a.uid else fstat.st_uid,
        st_gid := if FileAttrs.Valid a.gid then a.gid else fstat.st_gid }

/-- Source `FileTable::Stat`: canonicalize, host `stat` into the caller's buffer
(`buf` unchanged on failure), then unconditionally consult the store and
overlay any non-null record.  Returns (result code, buffer, state). -/
def ftStat (host : Host) (s : Sys) (path0 : String) (buf : HostStat) :
    Int × HostStat × Sys :=
  let path := canonicalize host path0
  let base : Int × HostStat :=
    match host.hstat path with
    | some st => (0, st)
    | none => (-1, buf)
  match ftGetFileAttrs host s path with
  | (attrs, s1) => (base.1, statOverlay base.2 attrs, s1)

/-- Source `FileTable::GetFileHandle`: return the registered handle, else derive
one from a successful host `stat` and register both directions; returns
0 (and registers nothing) when the host `stat` fails. -/
def ftGetFileHandle (host : Host) (s : Sys) (path0 : String) : Nat × Sys :=
  let path := canonicalize host path0
  match alookup s.path2handle path with
  | some h => (h, s)
  | none =>
      match host.hstat path with
      | some st =>
          let h := make_file_handle st
          (h, { s with path2handle := aset s.path2handle path h,
                       handle2path := aset s.handle2path h path })
      | none => (0, s)

/-- Source `FileTable::GetAbsolutePath` (resolveHandle): reverse lookup. -/
def ftGetAbsolutePath (s : Sys) (fhandle : Nat) : Option String :=
  alookup s.handle2path fhandle

/-- The statement `GetDB(path)->Remove(path)` (with the dirty marking done
inside `FileAttrDB::Remove` via `ft.Dirty(this)`), shared by
`FileTable::Remove` and `FileTable::Move`. -/
def dbRemoveAt (host : Host) (s : Sys) (path : String) : Sys :=
  match getDB host s path with
  | (dbdir, db, s1) =>
      match dbRemove db path with
      | (db2, dirtied) =>
          let s2 := { s1 with path2db := aset s1.path2db dbdir db2 }
          if dirtied then { s2 with dirty := dirtyInsert s2.dirty dbdir } else s2

/-- Source `FileTable::Remove`: only when a handle is registered for the
canonical path are both mapping directions erased and the store entry
deleted; otherwise nothing at all happens. -/
def ftRemove (host : Host) (s : Sys) (path0 : String) : Sys :=
  let path := canonicalize host path0
  match alookup s.path2handle path with
  | none => s
  | some h =>
      dbRemoveAt host
        { s with path2handle := aerase s.path2handle path,
                 handle2path := aerase s.handle2path h } path

/-- Uninitialized stack buffer handed to `stat` calls whose contents are
only read after a success overwrote them. -/
def dummyStat : HostStat := ⟨0, 0, 0, 0, 0, 0, 0, 0, 0, 0⟩

/-- Source `FileTable::Move`: everything is guarded by `pathFrom` having a
registered handle.  Inside the guard: `Stat(pathFrom)` (with all its side
effects), re-key the handle to `pathTo` in both directions, copy the
effective attributes to `pathTo`'s store when the stat succeeded, and
finally remove `pathFrom`'s store entry. -/
def ftMove (host : Host) (s : Sys) (pathFrom0 pathTo0 : String) : Sys :=
  let pathFrom := canonicalize host pathFrom0
  let pathTo := canonicalize host pathTo0
  match alookup s.path2handle pathFrom with
  | none => s
  | some h =>
      match ftStat host s pathFrom dummyStat with
      | (statResult, fstat, s1) =>
          let s2 := { s1 with
            path2handle := aset (aerase s1.path2handle pathFrom) pathTo h,
            handle2path := aset (aerase s1.handle2path h) h pathTo }
          let s3 := if statResult = 0
                    then ftSetFileAttrs host s2 pathTo (FileAttrs.ofStat fstat)
                    else s2
          dbRemoveAt host s3 pathFrom

/-- One store flush inside `FileTable::Write`. -/
def flushOne (host : Host) (s : Sys) (dbdir : String) : Sys :=
  match alookup s.path2db dbdir with
  | none => s
  | some db =>
      match dbWrite host db s.disk with
      | (db2, disk2) =>
          { s with path2db := aset s.path2db dbdir db2, disk := disk2 }

/-- Source `FileTable::Write` (the background flush): write every dirty store,
then clear the dirty set unconditionally. -/
def ftWrite (host : Host) (s : Sys) : Sys :=
  let s1 := s.dirty.foldl (flushOne host) s
  { s1 with dirty := [] }

/-! ## Operation alphabet and traces -/

inductive Op where
  | stat (p : String)
  | getFileHandle (p : String)
  | move (a b : String)
  | remove (p : String)
  | setAttrs (p : String) (r : FileAttrs)
  | getAttrs (p : String)
  | flush
deriving DecidableEq

def step (host : Host) (s : Sys) : Op → Sys
  | Op.stat p => (ftStat host s p dummyStat).2.2
  | Op.getFileHandle p => (ftGetFileHandle host s p).2
  | Op.move a b => ftMove host s a b
  | Op.remove p => ftRemove host s p
  | Op.setAttrs p r => ftSetFileAttrs host s p r
  | Op.getAttrs p => (ftGetFileAttrs host s p).2
  | Op.flush => ftWrite host s

def run (host : Host) (s : Sys) (ops : List Op) : Sys :=
  ops.foldl (step host) s

/-! ## Invariants and side conditions -/

/-- Two association lists are exact inverses of each other as finite maps. -/
def InvRel (p2h : List (String × Nat)) (h2p : List (Nat × String)) : Prop :=
  (∀ p h, alookup p2h p = some h → alookup h2p h = some p) ∧
  (∀ h p, alookup h2p h = some p → alookup p2h p = some h)

/-- The two handle maps of a state are exact inverses of each other. -/
def InvMaps (s : Sys) : Prop :=
  InvRel s.path2handle s.handle2path

/-- Side conditions under which one operation preserves `InvMaps`: a fresh
handle registration must not collide with a handle already in the reverse
map, and a move's destination must be unregistered (or equal to the
source).  Without them the code breaks the bijection (see the
counterexamples). -/
def stepOK (host : Host) (s : Sys) : Op → Prop
  | Op.getFileHandle p =>
      alookup s.path2handle (canonicalize host p) = none →
      ∀ st, host.hstat (canonicalize host p) = some st →
        alookup s.handle2path (make_file_handle st) = none
  | Op.move a b =>
      ∀ h, alookup s.path2handle (canonicalize host a) = some h →
        (canonicalize host b = canonicalize host a ∨
         alookup s.path2handle (canonicalize host b) = none)
  | _ => True

/-- The store that `GetDB` would hand out for `p` in state `s`. -/
def dbFor (host : Host) (s : Sys) (p : String) : FileAttrDB :=
  (getDB host s p).2.1

/-- Field bounds under which a record's text line parses back to the same
32-bit values (always true of genuine `uint32_t`/`int` contents). -/
def WFRec (r : FileAttrs) : Prop :=
  r.mode < U32 ∧ r.uid < U32 ∧ r.gid < U32 ∧
    -(I32MAX : Int) ≤ r.reserved ∧ r.reserved < (I32MAX : Int)

/-- Names that survive the `%s` round trip: nonempty and whitespace-free. -/
def WFName (nm : String) : Prop :=
  nm ≠ "" ∧ ∀ c ∈ nm.toList, isWS c = false

/-! ## Concrete hosts, records and states used in counterexamples and
witnesses -/

def rSample : FileAttrs := ⟨420, 1, 2, 0, 0, 0, 0, 0, 0⟩

/-- Overlay record whose mode carries the regular-file type bits `0o100644`
(exactly what `Move` stores: a full `st_mode`). -/
def rTyped : FileAttrs := ⟨33188, 4294967295, 4294967295, 0, 0, 0, 0, 0, 0⟩

/-- Overlay record overriding only the uid. -/
def rUidOnly : FileAttrs := ⟨4294967295, 7, 4294967295, 0, 0, 0, 0, 0, 0⟩

def statA : HostStat := ⟨1, 1, 33188, 0, 0, 0, 0, 0, 0, 0⟩
def statB : HostStat := ⟨1, 2, 33188, 0, 0, 0, 0, 0, 0, 0⟩

/-- A directory with mode `0o40755`, uid 501, gid 20. -/
def statDir : HostStat := ⟨1, 1, 16877, 501, 20, 0, 0, 0, 0, 0⟩

/-- Host on which every `realpath` and `stat` fails and writes succeed. -/
def hostNone : Host := ⟨fun _ => none, fun _ => none, fun _ => true⟩

/-- Host on which every `stat` fails and every `fopen(.., "w")` fails. -/
def hostWriteFail : Host := ⟨fun _ => none, fun _ => none, fun _ => false⟩

/-- Host exposing `/a` and `/b` as two distinct files on one device. -/
def hostAB : Host :=
  ⟨fun _ => none,
   fun p => if p = "/a" then some statA else if p = "/b" then some statB else none,
   fun _ => true⟩

/-- Host exposing `/a` and `/c` as two distinct files on one device. -/
def hostAC : Host :=
  ⟨fun _ => none,
   fun p => if p = "/a" then some statA else if p = "/c" then some statB else none,
   fun _ => true⟩

/-- Host exposing just `/d/a`. -/
def hostDA : Host :=
  ⟨fun _ => none, fun p => if p = "/d/a" then some statA else none, fun _ => true⟩

/-- Host exposing `/d/f` as a directory (mode `0o40755`). -/
def hostDirF : Host :=
  ⟨fun _ => none, fun p => if p = "/d/f" then some statDir else none, fun _ => true⟩

def dbW7 : FileAttrDB := ⟨"/.nfsd_fattrs", [("p", some rSample)]⟩

/-- State with `/p` registered under handle 5 and an overlay entry for it. -/
def sysW7 : Sys := ⟨[("/p", 5)], [(5, "/p")], [("/", dbW7)], [], []⟩

/-- State with `/a` registered under handle 5, maps inverse. -/
def sysW5 : Sys := ⟨[("/a", 5)], [(5, "/a")], [], [], []⟩

def dbW4 : FileAttrDB := ⟨"/d/.nfsd_fattrs", [("a", some rSample)]⟩

/-- State whose only store (for `/d`) is dirty. -/
def sysW4 : Sys := ⟨[], [], [("/d", dbW4)], ["/d"], []⟩

/-- A store holding one overlay entry whose filename contains a space. -/
def dbSpace : FileAttrDB := ⟨"/d/.nfsd_fattrs", [("a b", some rSample)]⟩

/-- A store holding one well-formed overlay entry. -/
def dbW6 : FileAttrDB := ⟨"/d/.nfsd_fattrs", [("a.txt", some rSample)]⟩

/-- The file contents `FileAttrDB::Write` produces for a list of non-null
records: one `recordLine` per entry, in order. -/
def linesOf (l : List (String × FileAttrs)) : List Char :=
  (l.map (fun x => recordLine x.1 x.2)).flatten

/-! ## Lemmas: association-list semantics -/

theorem alookup_aset {α β : Type} [DecidableEq α] [KLt α]
    (l : List (α × β)) (a k : α) (b : β) :
    alookup (aset l a b) k = if k = a then some b else alookup l k := by
  induction l with
  | nil =>
      by_cases h : k = a
      · subst h; simp [aset, alookup]
      · have h2 : ¬ a = k := fun hx => h hx.symm
        simp [aset, alookup, h, h2]
  | cons kv t ih =>
      obtain ⟨k0, v0⟩ := kv
      by_cases h1 : a = k0
      · subst h1
        by_cases h2 : k = a
        · subst h2; simp [aset, alookup]
        · have h3 : ¬ a = k := fun hx => h2 hx.symm
          simp [aset, alookup, h2, h3]
      · cases h2 : KLt.kltb a k0 with
        | true =>
            by_cases h3 : k = a
            · subst h3
              simp [aset, h1, h2, alookup]
            · have h4 : ¬ a = k := fun hx => h3 hx.symm
              simp [aset, h1, h2, alookup, h3, h4]
        | false =>
            by_cases h3 : k = a
            · subst h3
              have h4 : ¬ k0 = k := fun hx => h1 hx.symm
              simp [aset, h1, h2, alookup, h4, ih]
            · by_cases h4 : k0 = k
              · subst h4
                simp [aset, h1, h2, alookup, h3]
              · simp [aset, h1, h2, alookup, h4, ih, h3]

theorem alookup_aerase {α β : Type} [DecidableEq α] (l : List (α × β)) (a k : α) :
    alookup (aerase l a) k = if k = a then none else alookup l k := by
  induction l with
  | nil => simp [aerase, alookup]
  | cons kv t ih =>
      obtain ⟨k0, v0⟩ := kv
      by_cases h1 : k0 = a
      · rw [show aerase ((k0, v0) :: t) a = aerase t a by simp [aerase, h1]]
        rw [ih]
        by_cases h2 : k = a
        · simp [h2]
        · have h3 : ¬ k0 = k := by rw [h1]; exact fun hx => h2 hx.symm
          simp [alookup, h2, h3]
      · rw [show aerase ((k0, v0) :: t) a = (k0, v0) :: aerase t a by simp [aerase, h1]]
        by_cases h2 : k0 = k
        · subst h2
          simp [alookup, h1]
        · by_cases h3 : k = a
          · subst h3
            simp [alookup, h1, h2, ih]
          · simp [alookup, h2, ih, h3]

theorem length_aset_new {α β : Type} [DecidableEq α] [KLt α]
    (l : List (α × β)) (a : α) (b : β)
    (h : alookup l a = none) : (aset l a b).length = l.length + 1 := by
  induction l with
  | nil => simp [aset]
  | cons kv t ih =>
      obtain ⟨k0, v0⟩ := kv
      by_cases h1 : a = k0
      · subst h1; simp [alookup] at h
      · have hk : ¬ k0 = a := fun hx => h1 hx.symm
        simp only [alookup, if_neg hk] at h
        cases h2 : KLt.kltb a k0
        · simp [aset, h1, h2, ih h]
        · simp [aset, h1, h2]

/-- Source `aset` of a key that is not equal to and not less than any key in the
list appends at the end. -/
theorem aset_append_gt {α β : Type} [DecidableEq α] [KLt α]
    (l : List (α × β)) (a : α) (b : β)
    (h : ∀ kv ∈ l, ¬ a = kv.1 ∧ KLt.kltb a kv.1 = false) :
    aset l a b = l ++ [(a, b)] := by
  induction l with
  | nil => simp [aset]
  | cons kv t ih =>
      obtain ⟨k0, v0⟩ := kv
      have hk := h (k0, v0) (by simp)
      simp [aset, hk.1, hk.2, ih (fun kv hkv => h kv (by simp [hkv]))]

/-! ## Which operations leave the handle registry untouched -/

theorem getDB_fst (host : Host) (s : Sys) (p : String) :
    (getDB host s p).1 = dirname (canonicalize host p) := by
  unfold getDB
  cases h : alookup s.path2db (dirname (canonicalize host p)) <;> simp [h]

theorem getDB_path2handle (host : Host) (s : Sys) (p : String) :
    (getDB host s p).2.2.path2handle = s.path2handle := by
  unfold getDB
  cases h : alookup s.path2db (dirname (canonicalize host p)) <;> simp [h]

theorem getDB_handle2path (host : Host) (s : Sys) (p : String) :
    (getDB host s p).2.2.handle2path = s.handle2path := by
  unfold getDB
  cases h : alookup s.path2db (dirname (canonicalize host p)) <;> simp [h]

theorem getDB_dirty (host : Host) (s : Sys) (p : String) :
    (getDB host s p).2.2.dirty = s.dirty := by
  unfold getDB
  cases h : alookup s.path2db (dirname (canonicalize host p)) <;> simp [h]

theorem getDB_disk (host : Host) (s : Sys) (p : String) :
    (getDB host s p).2.2.disk = s.disk := by
  unfold getDB
  cases h : alookup s.path2db (dirname (canonicalize host p)) <;> simp [h]

/-- After `GetDB`, the store cache holds the returned store under the
returned directory key. -/
theorem getDB_lookup (host : Host) (s : Sys) (p : String) :
    alookup (getDB host s p).2.2.path2db (getDB host s p).1 =
      some (getDB host s p).2.1 := by
  unfold getDB
  cases h : alookup s.path2db (dirname (canonicalize host p)) with
  | none => simp [h, alookup_aset]
  | some db => simp [h]

theorem ftGetFileAttrs_path2handle (host : Host) (s : Sys) (p : String) :
    (ftGetFileAttrs host s p).2.path2handle = s.path2handle := by
  unfold ftGetFileAttrs
  rcases hg : getDB host s p with ⟨dbdir, db, s1⟩
  rcases hd : dbGetFileAttrs db p with ⟨res, db2⟩
  have h1 := getDB_path2handle host s p
  rw [hg] at h1
  simp only [] at h1
  simp [hd]
  exact h1

theorem ftGetFileAttrs_handle2path (host : Host) (s : Sys) (p : String) :
    (ftGetFileAttrs host s p).2.handle2path = s.handle2path := by
  unfold ftGetFileAttrs
  rcases hg : getDB host s p with ⟨dbdir, db, s1⟩
  rcases hd : dbGetFileAttrs db p with ⟨res, db2⟩
  have h1 := getDB_handle2path host s p
  rw [hg] at h1
  simp only [] at h1
  simp [hd]
  exact h1

theorem ftSetFileAttrs_path2handle (host : Host) (s : Sys) (p : String)
    (r : FileAttrs) : (ftSetFileAttrs host s p r).path2handle = s.path2handle := by
  unfold ftSetFileAttrs
  rcases hg : getDB host s p with ⟨dbdir, db, s1⟩
  rcases hd : dbSetFileAttrs db p r with ⟨db2, dirtied⟩
  have h1 := getDB_path2handle host s p
  rw [hg] at h1
  simp only [] at h1
  cases dirtied <;> simp [hd] <;> exact h1

theorem ftSetFileAttrs_handle2path (host : Host) (s : Sys) (p : String)
    (r : FileAttrs) : (ftSetFileAttrs host s p r).handle2path = s.handle2path := by
  unfold ftSetFileAttrs
  rcases hg : getDB host s p with ⟨dbdir, db, s1⟩
  rcases hd : dbSetFileAttrs db p r with ⟨db2, dirtied⟩
  have h1 := getDB_handle2path host s p
  rw [hg] at h1
  simp only [] at h1
  cases dirtied <;> simp [hd] <;> exact h1

theorem ftStat_path2handle (host : Host) (s : Sys) (p : String) (buf : HostStat) :
    (ftStat host s p buf).2.2.path2handle = s.path2handle := by
  have h1 := ftGetFileAttrs_path2handle host s (canonicalize host p)
  simp only [ftStat]
  rcases hg : ftGetFileAttrs host s (canonicalize host p) with ⟨attrs, s1⟩
  rw [hg] at h1
  simp only [] at h1
  simp [hg]
  exact h1

theorem ftStat_handle2path (host : Host) (s : Sys) (p : String) (buf : HostStat) :
    (ftStat host s p buf).2.2.handle2path = s.handle2path := by
  have h1 := ftGetFileAttrs_handle2path host s (canonicalize host p)
  simp only [ftStat]
  rcases hg : ftGetFileAttrs host s (canonicalize host p) with ⟨attrs, s1⟩
  rw [hg] at h1
  simp only [] at h1
  simp [hg]
  exact h1

theorem flushOne_path2handle (host : Host) (s : Sys) (k : String) :
    (flushOne host s k).path2handle = s.path2handle := by
  unfold flushOne
  cases alookup s.path2db k with
  | none => simp
  | some db =>
      rcases hw : dbWrite host db s.disk with ⟨db2, disk2⟩
      simp [hw]

theorem flushOne_handle2path (host : Host) (s : Sys) (k : String) :
    (flushOne host s k).handle2path = s.handle2path := by
  unfold flushOne
  cases alookup s.path2db k with
  | none => simp
  | some db =>
      rcases hw : dbWrite host db s.disk with ⟨db2, disk2⟩
      simp [hw]

theorem foldl_flushOne_path2handle (host : Host) (l : List String) (s : Sys) :
    (l.foldl (flushOne host) s).path2handle = s.path2handle := by
  induction l generalizing s with
  | nil => rfl
  | cons k t ih => rw [List.foldl_cons, ih, flushOne_path2handle]

theorem foldl_flushOne_handle2path (host : Host) (l : List String) (s : Sys) :
    (l.foldl (flushOne host) s).handle2path = s.handle2path := by
  induction l generalizing s with
  | nil => rfl
  | cons k t ih => rw [List.foldl_cons, ih, flushOne_handle2path]

theorem ftWrite_path2handle (host : Host) (s : Sys) :
    (ftWrite host s).path2handle = s.path2handle := by
  unfold ftWrite
  simp [foldl_flushOne_path2handle]

theorem ftWrite_handle2path (host : Host) (s : Sys) :
    (ftWrite host s).handle2path = s.handle2path := by
  unfold ftWrite
  simp [foldl_flushOne_handle2path]

theorem dbRemoveAt_path2handle (host : Host) (s : Sys) (p : String) :
    (dbRemoveAt host s p).path2handle = s.path2handle := by
  unfold dbRemoveAt
  rcases hg : getDB host s p with ⟨dbdir, db, s1⟩
  rcases hr : dbRemove db p with ⟨db2, dirtied⟩
  have h1 := getDB_path2handle host s p
  rw [hg] at h1
  simp only [] at h1
  cases dirtied <;> simp [hr] <;> exact h1

theorem dbRemoveAt_handle2path (host : Host) (s : Sys) (p : String) :
    (dbRemoveAt host s p).handle2path = s.handle2path := by
  unfold dbRemoveAt
  rcases hg : getDB host s p with ⟨dbdir, db, s1⟩
  rcases hr : dbRemove db p with ⟨db2, dirtied⟩
  have h1 := getDB_handle2path host s p
  rw [hg] at h1
  simp only [] at h1
  cases dirtied <;> simp [hr] <;> exact h1

/-- After `GetDB(path)->Remove(path)` the store cached for `path`'s
directory has no entry under `filename path` any more. -/
theorem dbRemoveAt_attrs_gone (host : Host) (s : Sys) (p : String) :
    ∃ db2 : FileAttrDB,
      alookup (dbRemoveAt host s p).path2db (dirname (canonicalize host p)) =
        some db2 ∧
      alookup db2.attrs (filename p) = none := by
  unfold dbRemoveAt
  rcases hg : getDB host s p with ⟨dbdir, db, s1⟩
  have hfst := getDB_fst host s p
  have hlk := getDB_lookup host s p
  rw [hg] at hfst hlk
  simp only [] at hfst hlk
  subst hfst
  cases hl : alookup db.attrs (filename p) with
  | none =>
      have hr : dbRemove db p = (db, false) := by
        simp only [dbRemove]
        rw [hl]
      refine ⟨db, ?_, hl⟩
      simp [hr, alookup_aset]
  | some v =>
      have hr : dbRemove db p = (⟨db.dbpath, aerase db.attrs (filename p)⟩, true) := by
        simp only [dbRemove]
        rw [hl]
      refine ⟨⟨db.dbpath, aerase db.attrs (filename p)⟩, ?_, ?_⟩
      · simp [hr, alookup_aset]
      · simp [alookup_aerase]

/-- When the cache already holds a store for `p`'s directory, `GetDB`
returns it and leaves the state unchanged. -/
theorem getDB_hit (host : Host) (s : Sys) (p : String) (db : FileAttrDB)
    (h : alookup s.path2db (dirname (canonicalize host p)) = some db) :
    getDB host s p = (dirname (canonicalize host p), db, s) := by
  simp only [getDB]
  rw [h]

/-- Source `FileTable::GetFileAttrs` returns absent whenever the cached store for
the path's directory has no entry (null or otherwise) under its filename. -/
theorem ftGetFileAttrs_none (host : Host) (s : Sys) (p : String)
    (db : FileAttrDB)
    (hdb : alookup s.path2db (dirname (canonicalize host p)) = some db)
    (hattrs : alookup db.attrs (filename p) = none) :
    (ftGetFileAttrs host s p).1 = none := by
  unfold ftGetFileAttrs
  rw [getDB_hit host s p db hdb]
  have hd : dbGetFileAttrs db p =
      (none, ⟨db.dbpath, aset db.attrs (filename p) none⟩) := by
    simp only [dbGetFileAttrs]
    rw [hattrs]
  simp [hd]

/-! ## C7 and C10 -/

/-- C7: after `remove(p)` where the canonical path had a registered handle
and an overlay entry, the path-to-handle map no longer has the path as a
key, the handle-to-path map no longer has the old handle as a key, and
`getFileAttrs` for the path returns absent. -/
theorem C7_removed_entry_absent (host : Host) (s : Sys) (p : String) (h : Nat)
    (hreg : alookup s.path2handle (canonicalize host p) = some h)
    (hov : ∃ r : FileAttrs,
      (ftGetFileAttrs host s (canonicalize host p)).1 = some r) :
    alookup (ftRemove host s p).path2handle (canonicalize host p) = none ∧
    alookup (ftRemove host s p).handle2path h = none ∧
    (ftGetFileAttrs host (ftRemove host s p) (canonicalize host p)).1 = none := by
  have hrm : ftRemove host s p =
      dbRemoveAt host
        { s with path2handle := aerase s.path2handle (canonicalize host p),
                 handle2path := aerase s.handle2path h } (canonicalize host p) := by
    simp only [ftRemove]
    rw [hreg]
  refine ⟨?_, ?_, ?_⟩
  · rw [hrm, dbRemoveAt_path2handle]
    simp [alookup_aerase]
  · rw [hrm, dbRemoveAt_handle2path]
    simp [alookup_aerase]
  · obtain ⟨db2, hdb2, hgone⟩ := dbRemoveAt_attrs_gone host
      { s with path2handle := aerase s.path2handle (canonicalize host p),
               handle2path := aerase s.handle2path h } (canonicalize host p)
    rw [hrm]
    exact ftGetFileAttrs_none host _ (canonicalize host p) db2 hdb2 hgone

/-- C7 witness: concrete state with `/p` registered under handle 5 and an
overlay entry for it. -/
theorem C7_removed_entry_absent_witness :
    alookup sysW7.path2handle (canonicalize hostNone "/p") = some 5 ∧
    (∃ r : FileAttrs,
      (ftGetFileAttrs hostNone sysW7 (canonicalize hostNone "/p")).1 = some r) ∧
    (alookup (ftRemove hostNone sysW7 "/p").path2handle
        (canonicalize hostNone "/p") = none ∧
     alookup (ftRemove hostNone sysW7 "/p").handle2path 5 = none ∧
     (ftGetFileAttrs hostNone (ftRemove hostNone sysW7 "/p")
        (canonicalize hostNone "/p")).1 = none) :=
  ⟨by decide, ⟨rSample, by decide⟩,
   C7_removed_entry_absent hostNone sysW7 "/p" 5 (by decide)
     ⟨rSample, by decide⟩⟩

/-- C10: `move(pathFrom, pathTo)` with an unregistered `pathFrom` changes
nothing at all: the returned state is the input state. -/
theorem C10_move_unregistered_noop (host : Host) (s : Sys) (a b : String)
    (h : alookup s.path2handle (canonicalize host a) = none) :
    ftMove host s a b = s := by
  simp only [ftMove]
  rw [h]

/-- C10 witness: on the empty state a move is a no-op. -/
theorem C10_move_unregistered_noop_witness :
    alookup (initSys []).path2handle (canonicalize hostNone "/x") = none ∧
    ftMove hostNone (initSys []) "/x" "/y" = initSys [] :=
  ⟨by decide, C10_move_unregistered_noop hostNone (initSys []) "/x" "/y" (by decide)⟩

/-! ## C4: flush clears the dirty set even when the write failed -/

/-- C4 (amended): `FileTable::Write` clears the dirty set unconditionally.
A store whose sidecar `fopen(.., "w")` fails writes nothing — its file on
disk is untouched — yet it still leaves the dirty set, so the failed write
is never retried. -/
theorem C4_flush_clears_dirty (host : Host) (s : Sys) (k : String)
    (db : FileAttrDB) (hd : s.dirty = [k])
    (hdb : alookup s.path2db k = some db)
    (hwk : host.writeOk db.dbpath = false) :
    (ftWrite host s).dirty = [] ∧ (ftWrite host s).disk = s.disk := by
  have hw : dbWrite host db s.disk = (db, s.disk) := by
    unfold dbWrite
    by_cases hlen : db.attrs.length > 0 <;> simp [hlen, hwk]
  have hf : (flushOne host s k).disk = s.disk := by
    unfold flushOne
    simp [hdb, hw]
  constructor
  · simp [ftWrite]
  · show (ftWrite host s).disk = s.disk
    unfold ftWrite
    rw [hd]
    simpa using hf

/-- C4 witness: a dirty store on a host whose writes fail. -/
theorem C4_flush_clears_dirty_witness :
    sysW4.dirty = ["/d"] ∧
    alookup sysW4.path2db "/d" = some dbW4 ∧
    hostWriteFail.writeOk dbW4.dbpath = false ∧
    ((ftWrite hostWriteFail sysW4).dirty = [] ∧
     (ftWrite hostWriteFail sysW4).disk = sysW4.disk) :=
  ⟨by decide, by decide, by decide,
   C4_flush_clears_dirty hostWriteFail sysW4 "/d" dbW4 (by decide) (by decide)
     (by decide)⟩

/-- C4 counterexample: on a host whose sidecar write fails, one
`setFileAttrs` marks `/d` dirty, and the background flush then clears the
dirty set even though nothing was written to disk — the claim's "remains
marked dirty and is retried" is false for the code. -/
theorem C4_counterexample :
    (run hostWriteFail (initSys []) [Op.setAttrs "/d/a" rSample]).dirty =
      ["/d"] ∧
    hostWriteFail.writeOk "/d/.nfsd_fattrs" = false ∧
    (run hostWriteFail (initSys [])
      [Op.setAttrs "/d/a" rSample, Op.flush]).dirty = [] ∧
    (run hostWriteFail (initSys [])
      [Op.setAttrs "/d/a" rSample, Op.flush]).disk = [] := by
  decide

/-! ## Inverse-map preservation lemmas -/

/-- Erasing both directions of one binding preserves inverseness. -/
theorem InvRel_erase (p2h : List (String × Nat)) (h2p : List (Nat × String))
    (pc : String) (h : Nat) (hInv : InvRel p2h h2p)
    (hc : alookup p2h pc = some h) :
    InvRel (aerase p2h pc) (aerase h2p h) := by
  obtain ⟨hfwd, hbwd⟩ := hInv
  have hhp : alookup h2p h = some pc := hfwd pc h hc
  constructor
  · intro q g hq
    rw [alookup_aerase] at hq
    by_cases hq1 : q = pc
    · simp [hq1] at hq
    · rw [if_neg hq1] at hq
      have hg : alookup h2p g = some q := hfwd q g hq
      have hgh : ¬ g = h := by
        intro he
        rw [he, hhp] at hg
        exact hq1 (Option.some.injEq _ _ ▸ hg.symm ▸ rfl)
      rw [alookup_aerase, if_neg hgh]
      exact hg
  · intro g q hq
    rw [alookup_aerase] at hq
    by_cases hg1 : g = h
    · simp [hg1] at hq
    · rw [if_neg hg1] at hq
      have hg : alookup p2h q = some g := hbwd g q hq
      have hqp : ¬ q = pc := by
        intro he
        rw [he, hc] at hg
        exact hg1 (Option.some.injEq _ _ ▸ hg.symm ▸ rfl)
      rw [alookup_aerase, if_neg hqp]
      exact hg

/-- Registering a fresh path under a handle not present in the reverse map
preserves inverseness. -/
theorem InvRel_insert (p2h : List (String × Nat)) (h2p : List (Nat × String))
    (pc : String) (hstar : Nat) (hInv : InvRel p2h h2p)
    (hc : alookup p2h pc = none)
    (hfresh : alookup h2p hstar = none) :
    InvRel (aset p2h pc hstar) (aset h2p hstar pc) := by
  obtain ⟨hfwd, hbwd⟩ := hInv
  constructor
  · intro q g hq
    rw [alookup_aset] at hq
    by_cases hq1 : q = pc
    · rw [if_pos hq1] at hq
      obtain rfl : hstar = g := Option.some.injEq _ _ ▸ hq
      rw [alookup_aset, if_pos rfl]
      rw [hq1]
    · rw [if_neg hq1] at hq
      have hg : alookup h2p g = some q := hfwd q g hq
      have hgh : ¬ g = hstar := by
        intro he
        rw [he, hfresh] at hg
        cases hg
      rw [alookup_aset, if_neg hgh]
      exact hg
  · intro g q hq
    rw [alookup_aset] at hq
    by_cases hg1 : g = hstar
    · rw [if_pos hg1] at hq
      obtain rfl : pc = q := Option.some.injEq _ _ ▸ hq
      rw [alookup_aset, if_pos rfl]
      rw [hg1]
    · rw [if_neg hg1] at hq
      have hg : alookup p2h q = some g := hbwd g q hq
      have hqp : ¬ q = pc := by
        intro he
        rw [he, hc] at hg
        cases hg
      rw [alookup_aset, if_neg hqp]
      exact hg

/-- Re-keying a registered handle from `pa` to `pb` preserves inverseness
provided `pb` is the same canonical path or is unregistered. -/
theorem InvRel_rekey (p2h : List (String × Nat)) (h2p : List (Nat × String))
    (pa pb : String) (h : Nat) (hInv : InvRel p2h h2p)
    (hc : alookup p2h pa = some h)
    (hbn : pb = pa ∨ alookup p2h pb = none) :
    InvRel (aset (aerase p2h pa) pb h) (aset (aerase h2p h) h pb) := by
  obtain ⟨hfwd, hbwd⟩ := hInv
  have hhp : alookup h2p h = some pa := hfwd pa h hc
  constructor
  · intro q g hq
    rw [alookup_aset] at hq
    by_cases hq1 : q = pb
    · rw [if_pos hq1] at hq
      obtain rfl : h = g := Option.some.injEq _ _ ▸ hq
      rw [alookup_aset, if_pos rfl]
      rw [hq1]
    · rw [if_neg hq1, alookup_aerase] at hq
      by_cases hq2 : q = pa
      · simp [hq2] at hq
      · rw [if_neg hq2] at hq
        have hg : alookup h2p g = some q := hfwd q g hq
        have hgh : ¬ g = h := by
          intro he
          rw [he, hhp] at hg
          exact hq2 (Option.some.injEq _ _ ▸ hg.symm ▸ rfl)
        rw [alookup_aset, if_neg hgh, alookup_aerase, if_neg hgh]
        exact hg
  · intro g q hq
    rw [alookup_aset] at hq
    by_cases hg1 : g = h
    · rw [if_pos hg1] at hq
      obtain rfl : pb = q := Option.some.injEq _ _ ▸ hq
      rw [alookup_aset, if_pos rfl]
      rw [hg1]
    · rw [if_neg hg1, alookup_aerase] at hq
      by_cases hg2 : g = h
      · exact absurd hg2 hg1
      · rw [if_neg hg2] at hq
        have hg : alookup p2h q = some g := hbwd g q hq
        have hqpa : ¬ q = pa := by
          intro he
          rw [he, hc] at hg
          exact hg1 (Option.some.injEq _ _ ▸ hg.symm ▸ rfl)
        have hqpb : ¬ q = pb := by
          intro he
          rcases hbn with hba | hbnone
          · exact hqpa (by rw [he, hba])
          · rw [he, hbnone] at hg
            cases hg
        rw [alookup_aset, if_neg hqpb, alookup_aerase, if_neg hqpa]
        exact hg

theorem InvRel_nil : InvRel [] [] :=
  ⟨fun _ _ hx => by simp [alookup] at hx, fun _ _ hx => by simp [alookup] at hx⟩

theorem InvRel_single (p0 : String) (h0 : Nat) : InvRel [(p0, h0)] [(h0, p0)] := by
  constructor
  · intro p h hx
    simp only [alookup] at hx ⊢
    by_cases hp : p0 = p
    · rw [if_pos hp] at hx
      rw [if_pos (Option.some.inj hx), hp]
    · rw [if_neg hp] at hx
      cases hx
  · intro h p hx
    simp only [alookup] at hx ⊢
    by_cases hh : h0 = h
    · rw [if_pos hh] at hx
      rw [if_pos (Option.some.inj hx), hh]
    · rw [if_neg hh] at hx
      cases hx

theorem InvMaps_of_eq (s t : Sys) (h1 : t.path2handle = s.path2handle)
    (h2 : t.handle2path = s.handle2path) (h : InvMaps s) : InvMaps t := by
  unfold InvMaps at *
  rw [h1, h2]
  exact h

/-! ## Characterizations of `Move` -/

/-- Source `Move` with an unregistered source is the identity. -/
theorem ftMove_unreg (host : Host) (s : Sys) (a b : String)
    (h : alookup s.path2handle (canonicalize host a) = none) :
    ftMove host s a b = s := by
  simp only [ftMove]
  rw [h]

/-- The handle maps after a `Move` whose source is registered: the binding
is erased and re-inserted under the destination path in both directions
(everything else `Move` does touches only stores, dirty set and disk). -/
theorem ftMove_maps_reg (host : Host) (s : Sys) (a b : String) (h : Nat)
    (hc : alookup s.path2handle (canonicalize host a) = some h) :
    (ftMove host s a b).path2handle =
      aset (aerase s.path2handle (canonicalize host a)) (canonicalize host b) h ∧
    (ftMove host s a b).handle2path =
      aset (aerase s.handle2path h) h (canonicalize host b) := by
  simp only [ftMove]
  rw [hc]
  rcases hst : ftStat host s (canonicalize host a) dummyStat with ⟨res, fst, s1⟩
  have hp1 := ftStat_path2handle host s (canonicalize host a) dummyStat
  have hp2 := ftStat_handle2path host s (canonicalize host a) dummyStat
  rw [hst] at hp1 hp2
  simp only [] at hp1 hp2
  dsimp only
  by_cases hres : res = 0
  · rw [if_pos hres]
    constructor
    · rw [dbRemoveAt_path2handle, ftSetFileAttrs_path2handle]
      simp [hp1]
    · rw [dbRemoveAt_handle2path, ftSetFileAttrs_handle2path]
      simp [hp2]
  · rw [if_neg hres]
    constructor
    · rw [dbRemoveAt_path2handle]
      simp [hp1]
    · rw [dbRemoveAt_handle2path]
      simp [hp2]

/-! ## C1: the bijection invariant -/

/-- C1 counterexample: on a host exposing `/a` (dev 1, ino 1) and `/b`
(dev 1, ino 2), after `getFileHandle(/a)`, `getFileHandle(/b)`,
`move(/a, /b)` the maps are not inverses: handle 4294967298 still maps to
`/b` in the reverse direction while `/b` maps to handle 4294967297 in the
forward direction — the stale reverse entry survives a move onto an
already-registered destination, so the claimed always-bijection is false. -/
theorem C1_counterexample :
    alookup (run hostAB (initSys [])
      [Op.getFileHandle "/a", Op.getFileHandle "/b",
       Op.move "/a" "/b"]).handle2path 4294967298 = some "/b" ∧
    alookup (run hostAB (initSys [])
      [Op.getFileHandle "/a", Op.getFileHandle "/b",
       Op.move "/a" "/b"]).path2handle "/b" = some 4294967297 ∧
    (4294967297 : Nat) ≠ 4294967298 := by
  decide

/-- C1 (amended): the path-to-handle and handle-to-path maps are exact
inverses in the initial state and are preserved by every operation
**provided** a fresh handle registration never collides with a handle
already present in the reverse map and a move's destination is the same
canonical path or is unregistered (`stepOK`); without those side
conditions the code breaks the bijection.  Moreover, in any
inverse-consistent state, right after `getFileHandle(p)` the returned
handle, if registered for `canonicalize(p)`, resolves back to
`canonicalize(p)`. -/
theorem C1_bijection_amended (host : Host) (s : Sys) (op : Op)
    (hInv : InvMaps s) (hok : stepOK host s op) :
    InvMaps (step host s op) ∧
    (∀ d : List (String × String), InvMaps (initSys d)) ∧
    (∀ p : String,
      alookup (ftGetFileHandle host s p).2.path2handle (canonicalize host p) =
        some (ftGetFileHandle host s p).1 →
      alookup (ftGetFileHandle host s p).2.handle2path
        (ftGetFileHandle host s p).1 = some (canonicalize host p)) := by
  refine ⟨?_, fun d => InvRel_nil, ?_⟩
  · cases op with
    | stat p =>
        exact InvMaps_of_eq s _ (ftStat_path2handle host s p dummyStat)
          (ftStat_handle2path host s p dummyStat) hInv
    | getAttrs p =>
        exact InvMaps_of_eq s _ (ftGetFileAttrs_path2handle host s p)
          (ftGetFileAttrs_handle2path host s p) hInv
    | setAttrs p r =>
        exact InvMaps_of_eq s _ (ftSetFileAttrs_path2handle host s p r)
          (ftSetFileAttrs_handle2path host s p r) hInv
    | flush =>
        exact InvMaps_of_eq s _ (ftWrite_path2handle host s)
          (ftWrite_handle2path host s) hInv
    | remove p =>
        show InvMaps (ftRemove host s p)
        cases hc : alookup s.path2handle (canonicalize host p) with
        | none =>
            have he : ftRemove host s p = s := by
              simp only [ftRemove]
              rw [hc]
            rw [he]
            exact hInv
        | some h =>
            have hrm : ftRemove host s p =
                dbRemoveAt host
                  { s with
                    path2handle := aerase s.path2handle (canonicalize host p),
                    handle2path := aerase s.handle2path h }
                  (canonicalize host p) := by
              simp only [ftRemove]
              rw [hc]
            rw [hrm]
            unfold InvMaps
            rw [dbRemoveAt_path2handle, dbRemoveAt_handle2path]
            exact InvRel_erase _ _ _ _ hInv hc
    | getFileHandle p =>
        show InvMaps (ftGetFileHandle host s p).2
        cases hc : alookup s.path2handle (canonicalize host p) with
        | some h =>
            have he : ftGetFileHandle host s p = (h, s) := by
              simp only [ftGetFileHandle]
              rw [hc]
            rw [he]
            exact hInv
        | none =>
            cases hst : host.hstat (canonicalize host p) with
            | none =>
                have he : ftGetFileHandle host s p = (0, s) := by
                  simp only [ftGetFileHandle]
                  rw [hc, hst]
                rw [he]
                exact hInv
            | some st =>
                have he : ftGetFileHandle host s p =
                    (make_file_handle st,
                     { s with
                       path2handle := aset s.path2handle (canonicalize host p)
                         (make_file_handle st),
                       handle2path := aset s.handle2path (make_file_handle st)
                         (canonicalize host p) }) := by
                  simp only [ftGetFileHandle]
                  rw [hc, hst]
                rw [he]
                unfold InvMaps
                exact InvRel_insert _ _ _ _ hInv hc (hok hc st hst)
    | move a b =>
        show InvMaps (ftMove host s a b)
        cases hc : alookup s.path2handle (canonicalize host a) with
        | none =>
            rw [ftMove_unreg host s a b hc]
            exact hInv
        | some h =>
            obtain ⟨hm1, hm2⟩ := ftMove_maps_reg host s a b h hc
            unfold InvMaps
            rw [hm1, hm2]
            exact InvRel_rekey _ _ _ _ _ hInv hc (hok h hc)
  · intro p hreg2
    cases hc : alookup s.path2handle (canonicalize host p) with
    | some h0 =>
        have he : ftGetFileHandle host s p = (h0, s) := by
          simp only [ftGetFileHandle]
          rw [hc]
        rw [he]
        exact hInv.1 _ _ hc
    | none =>
        cases hst : host.hstat (canonicalize host p) with
        | some st =>
            have he : ftGetFileHandle host s p =
                (make_file_handle st,
                 { s with
                   path2handle := aset s.path2handle (canonicalize host p)
                     (make_file_handle st),
                   handle2path := aset s.handle2path (make_file_handle st)
                     (canonicalize host p) }) := by
              simp only [ftGetFileHandle]
              rw [hc, hst]
            rw [he]
            dsimp only
            rw [alookup_aset, if_pos rfl]
        | none =>
            have he : ftGetFileHandle host s p = (0, s) := by
              simp only [ftGetFileHandle]
              rw [hc, hst]
            rw [he] at hreg2
            dsimp only at hreg2
            rw [hc] at hreg2
            cases hreg2

/-- C1 witness: the amended theorem applied to the empty state and the
flush operation (whose side condition is trivial). -/
theorem C1_bijection_amended_witness :
    InvMaps (step hostNone (initSys []) Op.flush) ∧
    InvMaps (initSys ([] : List (String × String))) :=
  ⟨(C1_bijection_amended hostNone (initSys []) Op.flush InvRel_nil trivial).1,
   (C1_bijection_amended hostNone (initSys []) Op.flush InvRel_nil
      trivial).2.1 []⟩

/-! ## C5: handle stability across rename -/

/-- C5 counterexample: on a host exposing `/a` (ino 1) and `/c` (ino 2),
the trace `getFileHandle(/a)`, `getFileHandle(/c)`, `move(/c, /a)`,
`move(/a, /b)` leaves handle 4294967297 — which was previously mapped to
`/a` — still resolving to `/a` after the move away from `/a`, because
`move(/c, /a)` overwrote the forward binding of `/a` while leaving the
stale reverse entry, and `move(/a, /b)` erased only the current binding.
So "no handle previously mapped to A resolves to A any longer" is false. -/
theorem C5_counterexample :
    alookup (run hostAC (initSys []) [Op.getFileHandle "/a"]).handle2path
      4294967297 = some "/a" ∧
    alookup (run hostAC (initSys [])
      [Op.getFileHandle "/a", Op.getFileHandle "/c",
       Op.move "/c" "/a", Op.move "/a" "/b"]).handle2path 4294967297 =
      some "/a" ∧
    canonicalize hostAC "/a" = "/a" ∧ ("/a" : String) ≠ "/b" := by
  decide

/-- C5 (amended): in an inverse-consistent state, given a handle `h`
registered for `canonicalize(a)` with `canonicalize(a) ≠ canonicalize(b)`,
after `move(a, b)` the same handle `h` is bound to `canonicalize(b)` in
both directions, no new handle value appears in the reverse map, and no
handle resolves to `canonicalize(a)` any longer.  (Without the
inverse-consistency precondition a stale second handle for `a` can
survive — see the counterexample.) -/
theorem C5_handle_stability_amended (host : Host) (s : Sys) (a b : String)
    (h : Nat) (hInv : InvMaps s)
    (hreg : alookup s.path2handle (canonicalize host a) = some h)
    (hne : canonicalize host a ≠ canonicalize host b) :
    alookup (ftMove host s a b).path2handle (canonicalize host b) = some h ∧
    alookup (ftMove host s a b).handle2path h = some (canonicalize host b) ∧
    (∀ h2 : Nat, (alookup (ftMove host s a b).handle2path h2).isSome →
      (alookup s.handle2path h2).isSome) ∧
    (∀ h2 : Nat,
      alookup (ftMove host s a b).handle2path h2 ≠
        some (canonicalize host a)) := by
  obtain ⟨hm1, hm2⟩ := ftMove_maps_reg host s a b h hreg
  have hhp : alookup s.handle2path h = some (canonicalize host a) :=
    hInv.1 _ _ hreg
  refine ⟨?_, ?_, ?_, ?_⟩
  · rw [hm1, alookup_aset, if_pos rfl]
  · rw [hm2, alookup_aset, if_pos rfl]
  · intro h2 hsome
    rw [hm2, alookup_aset] at hsome
    by_cases hh : h2 = h
    · rw [hh, hhp]
      simp
    · rw [if_neg hh, alookup_aerase, if_neg hh] at hsome
      exact hsome
  · intro h2
    rw [hm2, alookup_aset]
    by_cases hh : h2 = h
    · rw [if_pos hh]
      intro hx
      exact hne (Option.some.inj hx).symm
    · rw [if_neg hh, alookup_aerase, if_neg hh]
      intro hx
      have h3 := hInv.2 _ _ hx
      rw [hreg] at h3
      exact hh (Option.some.inj h3).symm

/-- C5 witness: the amended theorem on a one-binding state. -/
theorem C5_handle_stability_amended_witness :
    alookup (ftMove hostNone sysW5 "/a" "/b").path2handle
      (canonicalize hostNone "/b") = some 5 ∧
    alookup (ftMove hostNone sysW5 "/a" "/b").handle2path 5 =
      some (canonicalize hostNone "/b") :=
  ⟨(C5_handle_stability_amended hostNone sysW5 "/a" "/b" 5
      (InvRel_single "/a" 5) rfl (by decide)).1,
   (C5_handle_stability_amended hostNone sysW5 "/a" "/b" 5
      (InvRel_single "/a" 5) rfl (by decide)).2.1⟩

/-! ## Characterization of `Stat` -/

theorem ftStat_eq (host : Host) (s : Sys) (p : String) (buf : HostStat) :
    ftStat host s p buf =
      ((match host.hstat (canonicalize host p) with
        | some _ => (0 : Int)
        | none => -1),
       statOverlay
         (match host.hstat (canonicalize host p) with
          | some st => st
          | none => buf)
         (ftGetFileAttrs host s (canonicalize host p)).1,
       (ftGetFileAttrs host s (canonicalize host p)).2) := by
  simp only [ftStat]
  rcases hg : ftGetFileAttrs host s (canonicalize host p) with ⟨attrs, s1⟩
  cases hh : host.hstat (canonicalize host p) <;> simp [hh, hg]

/-- Any `GetFileAttrs` call leaves a store cached for the path's directory
(the lookup/creation is unconditional). -/
theorem ftGetFileAttrs_db_present (host : Host) (s : Sys) (q : String) :
    (alookup (ftGetFileAttrs host s q).2.path2db
      (dirname (canonicalize host q))).isSome = true := by
  unfold ftGetFileAttrs
  rcases hg : getDB host s q with ⟨dbdir, db, s1⟩
  rcases hd : dbGetFileAttrs db q with ⟨res, db2⟩
  have hfst := getDB_fst host s q
  rw [hg] at hfst
  simp only [] at hfst
  subst hfst
  simp [hd, alookup_aset]

/-! ## C2: attribute overlay precedence -/

/-- C2 counterexample: a recorded overlay whose mode carries file-type bits
(`0o100644`, as `Move` records them) on a host directory (`0o40755`):
`Stat` succeeds, but the returned mode's file-type bits are
`0o140000 = 49152`, not the host's `0o040000 = 16384` — the overlay's type
bits are OR-ed in, so "the file-type bits always come from the host stat
result" is false. -/
theorem C2_counterexample :
    hostDirF.hstat (canonicalize hostDirF "/d/f") = some statDir ∧
    (ftStat hostDirF
      (run hostDirF (initSys []) [Op.setAttrs "/d/f" rTyped]) "/d/f"
      dummyStat).1 = 0 ∧
    (ftStat hostDirF
      (run hostDirF (initSys []) [Op.setAttrs "/d/f" rTyped]) "/d/f"
      dummyStat).2.1.st_mode &&& S_IFMT = 49152 ∧
    statDir.st_mode &&& S_IFMT = 16384 ∧ (49152 : Nat) ≠ 16384 := by
  decide

/-- C2 (amended): when the host stat succeeds and a non-null overlay record
is consulted, `Stat` returns 0 and the effective fields are: mode = the
**whole** overlay mode OR-ed with the host's file-type bits when the
overlay mode is valid (so only when the overlay mode carries no file-type
bits of its own do the file-type bits come exclusively from the host),
uid/gid = the overlay value when valid; every sentinel field falls through
to the host value. -/
theorem C2_overlay_amended (host : Host) (s : Sys) (p : String)
    (buf : HostStat) (hs : HostStat) (r : FileAttrs)
    (hstat : host.hstat (canonicalize host p) = some hs)
    (hov : (ftGetFileAttrs host s (canonicalize host p)).1 = some r) :
    (ftStat host s p buf).1 = 0 ∧
    (ftStat host s p buf).2.1.st_mode =
      (if FileAttrs.Valid r.mode then r.mode ||| (hs.st_mode &&& S_IFMT)
       else hs.st_mode) ∧
    (ftStat host s p buf).2.1.st_uid =
      (if FileAttrs.Valid r.uid then r.uid else hs.st_uid) ∧
    (ftStat host s p buf).2.1.st_gid =
      (if FileAttrs.Valid r.gid then r.gid else hs.st_gid) := by
  rw [ftStat_eq, hstat, hov]
  refine ⟨rfl, ?_, ?_, ?_⟩ <;> simp [statOverlay]

/-- C2 witness: the amended theorem evaluated on the `/d/f` state. -/
theorem C2_overlay_amended_witness :
    (ftStat hostDirF
      (run hostDirF (initSys []) [Op.setAttrs "/d/f" rTyped]) "/d/f"
      dummyStat).1 = 0 ∧
    (ftStat hostDirF
      (run hostDirF (initSys []) [Op.setAttrs "/d/f" rTyped]) "/d/f"
      dummyStat).2.1.st_uid =
      (if FileAttrs.Valid rTyped.uid then rTyped.uid else statDir.st_uid) :=
  ⟨(C2_overlay_amended hostDirF
      (run hostDirF (initSys []) [Op.setAttrs "/d/f" rTyped]) "/d/f"
      dummyStat statDir rTyped (by decide) (by decide)).1,
   (C2_overlay_amended hostDirF
      (run hostDirF (initSys []) [Op.setAttrs "/d/f" rTyped]) "/d/f"
      dummyStat statDir rTyped (by decide) (by decide)).2.2.1⟩

/-! ## C3: error handling of `Stat` -/

/-- C3 counterexample: on a host where every stat fails, a path with a
recorded overlay (uid 7): `Stat` returns -1, yet the caller's buffer comes
back with `st_uid = 7` — the overlay **was** applied to the returned data,
and the store lookup happened (a store for `/d` is now cached).  The
claim's "only on success does it look up the store ... no overlay is
applied" is false. -/
theorem C3_counterexample :
    hostNone.hstat (canonicalize hostNone "/d/f") = none ∧
    (ftStat hostNone
      (run hostNone (initSys []) [Op.setAttrs "/d/f" rUidOnly]) "/d/f"
      dummyStat).1 = -1 ∧
    dummyStat.st_uid = 0 ∧
    (ftStat hostNone
      (run hostNone (initSys []) [Op.setAttrs "/d/f" rUidOnly]) "/d/f"
      dummyStat).2.1.st_uid = 7 ∧
    (alookup (ftStat hostNone
      (run hostNone (initSys []) [Op.setAttrs "/d/f" rUidOnly]) "/d/f"
      dummyStat).2.2.path2db "/d").isSome = true := by
  decide

/-- C3 (amended): `Stat` fails (returns nonzero) exactly when the host stat
on the canonicalized path fails; however the store lookup (with its lazy
creation) happens unconditionally, and on host-stat failure the returned
buffer is the caller's buffer with any non-null overlay record applied to
it — only the error code tells the caller to disregard it. -/
theorem C3_stat_error_amended (host : Host) (s : Sys) (p : String)
    (buf : HostStat) :
    ((ftStat host s p buf).1 = 0 ↔
      (host.hstat (canonicalize host p)).isSome = true) ∧
    (host.hstat (canonicalize host p) = none →
      (ftStat host s p buf).2.1 =
        statOverlay buf (ftGetFileAttrs host s (canonicalize host p)).1) ∧
    (alookup (ftStat host s p buf).2.2.path2db
      (dirname (canonicalize host (canonicalize host p)))).isSome = true := by
  refine ⟨?_, ?_, ?_⟩
  · rw [ftStat_eq]
    cases hh : host.hstat (canonicalize host p) <;> simp [hh]
  · intro hn
    rw [ftStat_eq, hn]
  · rw [ftStat_eq]
    exact ftGetFileAttrs_db_present host s (canonicalize host p)

/-- C3 witness: the amended theorem evaluated on the empty state. -/
theorem C3_stat_error_amended_witness :
    ((ftStat hostNone (initSys []) "/d/f" dummyStat).1 = 0 ↔
      (hostNone.hstat (canonicalize hostNone "/d/f")).isSome = true) ∧
    (alookup (ftStat hostNone (initSys []) "/d/f" dummyStat).2.2.path2db
      (dirname (canonicalize hostNone
        (canonicalize hostNone "/d/f")))).isSome = true :=
  ⟨(C3_stat_error_amended hostNone (initSys []) "/d/f" dummyStat).1,
   (C3_stat_error_amended hostNone (initSys []) "/d/f" dummyStat).2.2⟩

/-! ## The write/erase pass of `FileAttrDB::Write` -/

/-- The write pass keeps exactly the non-null entries and writes exactly
their lines, in map order. -/
theorem writeLoop_spec (l : List (String × Option FileAttrs)) :
    (writeLoop l).1 = l.filter (fun kv => kv.2.isSome) ∧
    (writeLoop l).2 =
      (l.filterMap (fun kv => kv.2.map (fun r => recordLine kv.1 r))).flatten := by
  induction l with
  | nil => constructor <;> rfl
  | cons kv t ih =>
      obtain ⟨nm, v⟩ := kv
      cases v with
      | none => simpa [writeLoop, List.filter, List.filterMap] using ih
      | some r =>
          constructor
          · simp [writeLoop, List.filter, ih.1]
          · simp [writeLoop, List.filterMap, ih.2]

/-- The write pass produces empty contents exactly when every entry of the
store is a null placeholder. -/
theorem writeLoop_nil_iff (l : List (String × Option FileAttrs)) :
    (writeLoop l).2 = [] ↔ ∀ kv ∈ l, kv.2 = none := by
  induction l with
  | nil => simp [writeLoop]
  | cons kv t ih =>
      obtain ⟨nm, v⟩ := kv
      cases v with
      | none => simpa [writeLoop] using ih
      | some r => simp [writeLoop, recordLine]

/-! ## C8: when an empty sidecar file can be created -/

/-- C8 counterexample: the trace `getFileHandle(/d/a)`,
`setFileAttrs(/d/a)`, `remove(/d/a)`, `getFileAttrs(/d/b)`, flush — on a
host with no pre-existing sidecar — creates `/d/.nfsd_fattrs` with empty
contents: the store still holds one entry (the null placeholder inserted
by the `getFileAttrs` miss), so the size guard passes, the file is
truncated/created, and the placeholder is erased instead of written.  So
"an empty sidecar file is never created" is false. -/
theorem C8_counterexample :
    alookup (initSys ([] : List (String × String))).disk "/d/.nfsd_fattrs" =
      none ∧
    alookup (run hostDA (initSys [])
      [Op.getFileHandle "/d/a", Op.setAttrs "/d/a" rSample,
       Op.remove "/d/a", Op.getAttrs "/d/b", Op.flush]).disk
      "/d/.nfsd_fattrs" = some "" := by
  decide

/-- C8 (amended): a store with zero entries never touches the file; a
store with at least one entry (null placeholders count) rewrites the
sidecar, and the contents written are empty exactly when every entry is a
null placeholder — so an empty sidecar is created exactly in that
degenerate (but reachable) case, and never when a real record exists. -/
theorem C8_empty_write_amended (host : Host) (db : FileAttrDB)
    (disk : List (String × String)) (hwk : host.writeOk db.dbpath = true) :
    (db.attrs = [] → dbWrite host db disk = (db, disk)) ∧
    (db.attrs ≠ [] →
      (dbWrite host db disk).2 =
        aset disk db.dbpath (String.mk (writeLoop db.attrs).2) ∧
      ((writeLoop db.attrs).2 = [] ↔ ∀ kv ∈ db.attrs, kv.2 = none)) := by
  refine ⟨?_, ?_⟩
  · intro h0
    unfold dbWrite
    simp [h0]
  · intro hne
    have hlen : db.attrs.length > 0 := List.length_pos.mpr hne
    refine ⟨?_, writeLoop_nil_iff db.attrs⟩
    unfold dbWrite
    simp [hlen, hwk]

/-- C8 witness: the amended theorem on a store with one real record. -/
theorem C8_empty_write_amended_witness :
    hostDA.writeOk dbW4.dbpath = true ∧ dbW4.attrs ≠ [] ∧
    (dbWrite hostDA dbW4 []).2 =
      aset [] dbW4.dbpath (String.mk (writeLoop dbW4.attrs).2) :=
  ⟨by decide, by decide,
   ((C8_empty_write_amended hostDA dbW4 [] (by decide)).2 (by decide)).1⟩

/-! ## C9: the read-only-looking `GetFileAttrs` mutates the store -/

/-- C9: for a path whose filename is not a key of its directory store,
`getFileAttrs` returns absent but inserts a null-valued entry under that
filename (via `operator[]`), growing the store by one entry; and the
flush pass is exactly the one that skips and erases such null entries
instead of writing them. -/
theorem C9_get_inserts_null (host : Host) (s : Sys) (p : String)
    (habs : alookup (dbFor host s p).attrs (filename p) = none) :
    (ftGetFileAttrs host s p).1 = none ∧
    alookup (dbFor host (ftGetFileAttrs host s p).2 p).attrs (filename p) =
      some none ∧
    (dbFor host (ftGetFileAttrs host s p).2 p).attrs.length =
      (dbFor host s p).attrs.length + 1 ∧
    (∀ l : List (String × Option FileAttrs),
      (writeLoop l).1 = l.filter (fun kv => kv.2.isSome) ∧
      (writeLoop l).2 =
        (l.filterMap (fun kv => kv.2.map (fun r => recordLine kv.1 r))).flatten) := by
  rcases hg : getDB host s p with ⟨dbdir, db, s1⟩
  have hfst := getDB_fst host s p
  rw [hg] at hfst
  simp only [] at hfst
  subst hfst
  have hdbfor : dbFor host s p = db := by
    unfold dbFor
    rw [hg]
  rw [hdbfor] at habs
  have hd : dbGetFileAttrs db p =
      (none, ⟨db.dbpath, aset db.attrs (filename p) none⟩) := by
    simp only [dbGetFileAttrs]
    rw [habs]
  have hres : (ftGetFileAttrs host s p).1 = none := by
    unfold ftGetFileAttrs
    rw [hg]
    simp [hd]
  have hft2 : (ftGetFileAttrs host s p).2.path2db =
      aset s1.path2db (dirname (canonicalize host p))
        ⟨db.dbpath, aset db.attrs (filename p) none⟩ := by
    unfold ftGetFileAttrs
    rw [hg]
    simp [hd]
  have hhit : alookup (ftGetFileAttrs host s p).2.path2db
      (dirname (canonicalize host p)) =
      some ⟨db.dbpath, aset db.attrs (filename p) none⟩ := by
    rw [hft2, alookup_aset, if_pos rfl]
  have hdbfor2 : dbFor host (ftGetFileAttrs host s p).2 p =
      ⟨db.dbpath, aset db.attrs (filename p) none⟩ := by
    unfold dbFor
    rw [getDB_hit _ _ _ _ hhit]
  refine ⟨hres, ?_, ?_, writeLoop_spec⟩
  · rw [hdbfor2]
    exact (alookup_aset _ _ _ _).trans (if_pos rfl)
  · rw [hdbfor2, hdbfor]
    exact length_aset_new _ _ _ habs

/-- C9 witness: on the empty state, a miss for `/d/f` inserts the null
placeholder. -/
theorem C9_get_inserts_null_witness :
    alookup (dbFor hostNone (initSys []) "/d/f").attrs (filename "/d/f") =
      none ∧
    ((ftGetFileAttrs hostNone (initSys []) "/d/f").1 = none ∧
     alookup (dbFor hostNone (ftGetFileAttrs hostNone (initSys []) "/d/f").2
        "/d/f").attrs (filename "/d/f") = some none) :=
  ⟨by decide,
   (C9_get_inserts_null hostNone (initSys []) "/d/f" (by decide)).1,
   (C9_get_inserts_null hostNone (initSys []) "/d/f" (by decide)).2.1⟩

/-! ## Round-trip lemmas for the sidecar text format -/

theorem charVal_digitChar (d : Nat) (h : d < 10) :
    charVal (digitChar d) = d := by
  interval_cases d <;> decide

theorem isOctDigit_digitChar (d : Nat) (h : d < 8) :
    isOctDigit (digitChar d) = true := by
  interval_cases d <;> decide

theorem isDecDigit_digitChar (d : Nat) (h : d < 10) :
    isDecDigit (digitChar d) = true := by
  interval_cases d <;> decide

theorem digitChar_good (d : Nat) (h : d < 10) :
    isWS (digitChar d) = false ∧ ¬ digitChar d = '-' ∧ ¬ digitChar d = '+' := by
  interval_cases d <;> exact ⟨by decide, by decide, by decide⟩

theorem toDigitsRev_eq (b : Nat) (hb : 1 < b) :
    ∀ fuel n, n ≤ fuel → toDigitsRev b fuel n = Nat.digits b n := by
  intro fuel
  induction fuel with
  | zero =>
      intro n hn
      have h0 : n = 0 := Nat.le_zero.mp hn
      subst h0
      simp [toDigitsRev]
  | succ f ih =>
      intro n hn
      cases n with
      | zero => simp [toDigitsRev]
      | succ m =>
          rw [Nat.digits_def' hb (Nat.succ_pos m)]
          show ((m + 1) % b) :: toDigitsRev b f ((m + 1) / b) = _
          congr 1
          apply ih
          have h2 : (m + 1) / b < m + 1 := Nat.div_lt_self (Nat.succ_pos m) hb
          omega

theorem baseChars_mem (b n : Nat) (hb : 1 < b) :
    ∀ c ∈ baseChars b n, ∃ d, d < b ∧ c = digitChar d := by
  intro c hc
  unfold baseChars at hc
  by_cases h0 : n = 0
  · rw [if_pos h0] at hc
    simp at hc
    exact ⟨0, by omega, by rw [hc]; decide⟩
  · rw [if_neg h0, toDigitsRev_eq b hb n n le_rfl] at hc
    simp only [List.mem_map, List.mem_reverse] at hc
    obtain ⟨d, hd, hcd⟩ := hc
    exact ⟨d, Nat.digits_lt_base hb hd, hcd.symm⟩

theorem baseChars_ne_nil (b n : Nat) : baseChars b n ≠ [] := by
  unfold baseChars
  by_cases h0 : n = 0
  · simp [h0]
  · rw [if_neg h0]
    cases n with
    | zero => exact absurd rfl h0
    | succ m => simp [toDigitsRev]

theorem foldl_digits (b : Nat) (hb10 : b ≤ 10) :
    ∀ L : List Nat, (∀ d ∈ L, d < b) →
    ∀ acc : Nat,
      (L.reverse.map digitChar).foldl (fun a c => a * b + charVal c) acc =
        acc * b ^ L.length + Nat.ofDigits b L := by
  intro L
  induction L with
  | nil => intro _ acc; simp [Nat.ofDigits]
  | cons d L ih =>
      intro hall acc
      have hd : d < b := hall d (by simp)
      have hd10 : d < 10 := lt_of_lt_of_le hd hb10
      rw [List.reverse_cons, List.map_append, List.foldl_append]
      rw [ih (fun x hx => hall x (by simp [hx])) acc]
      simp only [List.map_cons, List.map_nil, List.foldl_cons, List.foldl_nil,
        charVal_digitChar d hd10, Nat.ofDigits_cons, List.length_cons, pow_succ]
      ring

theorem digitsVal_baseChars (b n : Nat) (hb : 1 < b) (hb10 : b ≤ 10) :
    digitsVal b (baseChars b n) = n := by
  unfold digitsVal baseChars
  by_cases h0 : n = 0
  · rw [if_pos h0, h0]
    show 0 * b + charVal '0' = 0
    simp [charVal]
  · rw [if_neg h0, toDigitsRev_eq b hb n n le_rfl]
    have hall : ∀ d ∈ Nat.digits b n, d < b := fun d hd =>
      Nat.digits_lt_base hb hd
    rw [foldl_digits b hb10 _ hall 0]
    simp [Nat.ofDigits_digits]

theorem takeWhile_exact {p : Char → Bool} (l1 l2 : List Char)
    (h1 : ∀ c ∈ l1, p c = true)
    (h2 : ∀ c, l2.head? = some c → p c = false) :
    (l1 ++ l2).takeWhile p = l1 ∧ (l1 ++ l2).dropWhile p = l2 := by
  induction l1 with
  | nil =>
      simp only [List.nil_append]
      cases l2 with
      | nil => exact ⟨rfl, rfl⟩
      | cons c t =>
          have hc := h2 c rfl
          simp [List.takeWhile_cons, List.dropWhile_cons, hc]
  | cons c t ih =>
      have hc := h1 c (by simp)
      have iht := ih (fun x hx => h1 x (by simp [hx]))
      simp [List.takeWhile_cons, List.dropWhile_cons, hc, iht.1, iht.2]

theorem dropWS_id (l : List Char)
    (h : ∀ c, l.head? = some c → isWS c = false) : dropWS l = l := by
  cases l with
  | nil => rfl
  | cons c t => simp [dropWS, List.dropWhile_cons, h c rfl]

theorem dropWS_newline (rest : List Char)
    (h : ∀ c, rest.head? = some c → isWS c = false) :
    dropWS ('\n' :: rest) = rest := by
  simp only [dropWS, List.dropWhile_cons]
  rw [if_pos (by decide : isWS '\n' = true)]
  exact dropWS_id rest h

theorem expectChar_cons (c : Char) (l : List Char) :
    expectChar c (c :: l) = some l := by
  simp [expectChar]

theorem parseUnsigned_digits (b : Nat) (isD : Char → Bool)
    (ds rest : List Char) (hne : ds ≠ [])
    (hall : ∀ c ∈ ds, isD c = true)
    (hgood : ∀ c ∈ ds, isWS c = false ∧ ¬ c = '-' ∧ ¬ c = '+')
    (hrest : ∀ c, rest.head? = some c → isD c = false) :
    parseUnsigned b isD (ds ++ rest) = some (false, digitsVal b ds, rest) := by
  cases ds with
  | nil => exact absurd rfl hne
  | cons c t =>
      have hgc := hgood c (by simp)
      have hdw : dropWS ((c :: t) ++ rest) = c :: (t ++ rest) := by
        rw [dropWS_id]
        · simp
        · intro x hx
          simp at hx
          rw [← hx]
          exact hgc.1
      have htw := takeWhile_exact (p := isD) (c :: t) rest hall
        (fun x hx => by simpa using hrest x hx)
      simp only [List.cons_append] at htw
      simp only [parseUnsigned, hdw]
      rw [if_neg hgc.2.1, if_neg hgc.2.2]
      simp only [htw.1, htw.2]
      simp

theorem parseUnsigned_neg (b : Nat) (isD : Char → Bool)
    (ds rest : List Char) (hne : ds ≠ [])
    (hall : ∀ c ∈ ds, isD c = true)
    (hgood : ∀ c ∈ ds, isWS c = false ∧ ¬ c = '-' ∧ ¬ c = '+')
    (hrest : ∀ c, rest.head? = some c → isD c = false) :
    parseUnsigned b isD ('-' :: (ds ++ rest)) =
      some (true, digitsVal b ds, rest) := by
  have hdw : dropWS ('-' :: (ds ++ rest)) = '-' :: (ds ++ rest) := by
    apply dropWS_id
    intro x hx
    simp at hx
    rw [← hx]
    decide
  have htw := takeWhile_exact (p := isD) ds rest hall
    (fun x hx => by simpa using hrest x hx)
  simp only [parseUnsigned, hdw, if_true]
  simp only [htw.1, htw.2]
  cases ds with
  | nil => exact absurd rfl hne
  | cons c t => simp

theorem octChars_all (n : Nat) : ∀ c ∈ octChars n, isOctDigit c = true := by
  intro c hc
  obtain ⟨d, hd, hcd⟩ := baseChars_mem 8 n (by omega) c hc
  rw [hcd]
  exact isOctDigit_digitChar d hd

theorem octChars_good (n : Nat) :
    ∀ c ∈ octChars n, isWS c = false ∧ ¬ c = '-' ∧ ¬ c = '+' := by
  intro c hc
  obtain ⟨d, hd, hcd⟩ := baseChars_mem 8 n (by omega) c hc
  rw [hcd]
  exact digitChar_good d (by omega)

theorem decChars_all (n : Nat) : ∀ c ∈ decChars n, isDecDigit c = true := by
  intro c hc
  obtain ⟨d, hd, hcd⟩ := baseChars_mem 10 n (by omega) c hc
  rw [hcd]
  exact isDecDigit_digitChar d hd

theorem decChars_good (n : Nat) :
    ∀ c ∈ decChars n, isWS c = false ∧ ¬ c = '-' ∧ ¬ c = '+' := by
  intro c hc
  obtain ⟨d, hd, hcd⟩ := baseChars_mem 10 n (by omega) c hc
  rw [hcd]
  exact digitChar_good d hd

theorem digitsVal_octChars (n : Nat) : digitsVal 8 (octChars n) = n :=
  digitsVal_baseChars 8 n (by omega) (by omega)

theorem digitsVal_decChars (n : Nat) : digitsVal 10 (decChars n) = n :=
  digitsVal_baseChars 10 n (by omega) (by omega)

theorem parseOct_roundtrip (m : Nat) (hm : m < U32) (tail : List Char) :
    parseOctU32 (octChars m ++ ':' :: tail) = some (m, ':' :: tail) := by
  unfold parseOctU32
  rw [parseUnsigned_digits 8 isOctDigit (octChars m) (':' :: tail)
    (baseChars_ne_nil 8 m) (octChars_all m) (octChars_good m)
    (fun c hc => by simp at hc; rw [← hc]; decide)]
  have hmod : m % U32 = m := Nat.mod_eq_of_lt hm
  simp [toU32, digitsVal_octChars m, hmod]

theorem parseDecU32_roundtrip (u : Nat) (hu : u < U32) (tail : List Char) :
    parseDecU32 (i32Chars u ++ ':' :: tail) = some (u, ':' :: tail) := by
  unfold parseDecU32 i32Chars
  by_cases hc : u < I32MAX
  · rw [if_pos hc]
    rw [parseUnsigned_digits 10 isDecDigit (decChars u) (':' :: tail)
      (baseChars_ne_nil 10 u) (decChars_all u) (decChars_good u)
      (fun c hcc => by simp at hcc; rw [← hcc]; decide)]
    have hmod : u % U32 = u := Nat.mod_eq_of_lt hu
    simp [toU32, digitsVal_decChars u, hmod]
  · rw [if_neg hc]
    rw [show ('-' :: decChars (U32 - u)) ++ ':' :: tail =
        '-' :: (decChars (U32 - u) ++ ':' :: tail) from rfl]
    rw [parseUnsigned_neg 10 isDecDigit (decChars (U32 - u)) (':' :: tail)
      (baseChars_ne_nil 10 (U32 - u)) (decChars_all _) (decChars_good _)
      (fun c hcc => by simp at hcc; rw [← hcc]; decide)]
    have harith : toU32 true (U32 - u) = u := by
      simp only [toU32, if_true]
      simp only [U32, I32MAX] at hu hc ⊢
      omega
    simp [digitsVal_decChars (U32 - u), harith]

theorem parseDecI32_roundtrip (i : Int) (h1 : -(I32MAX : Int) ≤ i)
    (h2 : i < (I32MAX : Int)) (tail : List Char) :
    parseDecI32 (intChars i ++ ':' :: tail) = some (i, ':' :: tail) := by
  unfold parseDecI32 intChars
  by_cases hneg : i < 0
  · rw [if_pos hneg]
    rw [show ('-' :: decChars (-i).toNat) ++ ':' :: tail =
        '-' :: (decChars (-i).toNat ++ ':' :: tail) from rfl]
    rw [parseUnsigned_neg 10 isDecDigit (decChars (-i).toNat) (':' :: tail)
      (baseChars_ne_nil 10 _) (decChars_all _) (decChars_good _)
      (fun c hcc => by simp at hcc; rw [← hcc]; decide)]
    have hb1 : 1 ≤ (-i).toNat := by omega
    have hb2 : (-i).toNat ≤ I32MAX := by
      simp only [I32MAX] at h1 ⊢
      omega
    have hm : toU32 true ((-i).toNat) = U32 - (-i).toNat := by
      simp only [toU32, if_true]
      simp only [U32, I32MAX] at hb2 ⊢
      omega
    have hlt : ¬ toU32 true ((-i).toNat) < I32MAX := by
      rw [hm]
      simp only [U32, I32MAX] at hb2 ⊢
      omega
    simp only [digitsVal_decChars, hm, Option.map]
    rw [hm] at hlt
    rw [if_neg hlt]
    have hcast : ((U32 - (-i).toNat : Nat) : Int) = (U32 : Int) - ((-i).toNat : Int) := by
      have : (-i).toNat ≤ U32 := by
        simp only [U32, I32MAX] at hb2 ⊢
        omega
      exact_mod_cast Int.ofNat_sub this
    have htn : ((-i).toNat : Int) = -i := Int.toNat_of_nonneg (by omega)
    rw [hcast, htn]
    simp
  · rw [if_neg hneg]
    rw [parseUnsigned_digits 10 isDecDigit (decChars i.toNat) (':' :: tail)
      (baseChars_ne_nil 10 _) (decChars_all _) (decChars_good _)
      (fun c hcc => by simp at hcc; rw [← hcc]; decide)]
    have hin : i.toNat < I32MAX := by
      simp only [I32MAX] at h2 ⊢
      omega
    have hmod : i.toNat % U32 = i.toNat := Nat.mod_eq_of_lt
      (by simp only [U32, I32MAX] at hin ⊢; omega)
    have hm : toU32 false (i.toNat) = i.toNat := by
      simp [toU32, hmod]
    simp only [digitsVal_decChars, Option.map, hm]
    rw [if_pos hin]
    have htn : (i.toNat : Int) = i := Int.toNat_of_nonneg (by omega)
    rw [htn]

theorem parseStr_roundtrip (nm : String) (hnm : WFName nm) (tail : List Char) :
    parseStr (nm.toList ++ '\n' :: tail) = some (nm, '\n' :: tail) := by
  obtain ⟨hne, hws⟩ := hnm
  have hnl : nm.toList ≠ [] := by
    intro h0
    apply hne
    cases nm with
    | mk data =>
        simp only [String.toList] at h0
        simp [h0]
  have hdw : dropWS (nm.toList ++ '\n' :: tail) = nm.toList ++ '\n' :: tail := by
    apply dropWS_id
    intro c hc
    cases hl : nm.toList with
    | nil => exact absurd hl hnl
    | cons c0 t0 =>
        rw [hl] at hc
        simp at hc
        rw [← hc]
        exact hws c0 (by rw [hl]; simp)
  have htw := takeWhile_exact (p := fun c => ! isWS c) nm.toList ('\n' :: tail)
    (fun c hc => by simp [hws c hc])
    (fun c hc => by simp at hc; rw [← hc]; decide)
  simp only [parseStr, hdw, htw.1, htw.2]
  rw [if_neg (by simp only [List.isEmpty_iff]; exact hnl)]
  cases nm with
  | mk data => rfl

/-- One full `fscanf` round trip: the line written for a well-formed record
parses back to the same name and the persisted fields, consuming exactly
the line. -/
theorem parseRecord_line (nm : String) (r : FileAttrs) (rest : List Char)
    (hwf : WFRec r) (hnm : WFName nm)
    (hrest : ∀ c, rest.head? = some c → isWS c = false) :
    parseRecord (recordLine nm r ++ rest) =
      some (nm, persistedFields r, rest) := by
  obtain ⟨hm, hu, hg, hr1, hr2⟩ := hwf
  simp only [recordLine, List.cons_append, List.append_assoc, List.nil_append]
  simp only [parseRecord, expectChar_cons, parseOct_roundtrip r.mode hm,
    parseDecU32_roundtrip r.uid hu, parseDecU32_roundtrip r.gid hg,
    parseDecI32_roundtrip r.reserved hr1 hr2, parseStr_roundtrip nm hnm,
    dropWS_newline rest hrest]
  rfl

theorem linesOf_head (l : List (String × FileAttrs)) :
    ∀ c, (linesOf l).head? = some c → isWS c = false := by
  intro c hc
  cases l with
  | nil => simp [linesOf] at hc
  | cons x t =>
      have hh : (linesOf (x :: t)).head? = some '0' := by
        simp [linesOf, recordLine]
      rw [hh] at hc
      cases hc
      decide

theorem recordLine_length_pos (nm : String) (r : FileAttrs) :
    1 ≤ (recordLine nm r).length := by
  simp [recordLine]

/-- The constructor's read loop applied to the exact output of the write
pass recovers the written entries, given enough fuel. -/
theorem loadLoop_lines (l : List (String × FileAttrs)) :
    ∀ fuel, (linesOf l).length < fuel →
    (∀ x ∈ l, WFRec x.2 ∧ WFName x.1) →
    loadLoop fuel (linesOf l) = l.map (fun x => (x.1, persistedFields x.2)) := by
  induction l with
  | nil =>
      intro fuel hfuel _
      cases fuel with
      | zero => simp [linesOf] at hfuel
      | succ f =>
          show loadLoop (f + 1) (linesOf []) = _
          simp [linesOf, loadLoop, parseRecord, expectChar]
  | cons x t ih =>
      intro fuel hfuel hwf
      have hlx : linesOf (x :: t) = recordLine x.1 x.2 ++ linesOf t := by
        simp [linesOf]
      cases fuel with
      | zero => exact absurd hfuel (Nat.not_lt_zero _)
      | succ f =>
          have hpr := parseRecord_line x.1 x.2 (linesOf t)
            (hwf x (by simp)).1 (hwf x (by simp)).2 (linesOf_head t)
          rw [hlx]
          show (match parseRecord (recordLine x.1 x.2 ++ linesOf t) with
                | none => []
                | some (n, r, rest) => (n, r) :: loadLoop f rest) = _
          rw [hpr]
          have hfuel2 : (linesOf t).length < f := by
            rw [hlx] at hfuel
            have h1 := recordLine_length_pos x.1 x.2
            simp only [List.length_append] at hfuel
            omega
          dsimp only
          rw [ih f hfuel2 (fun y hy => hwf y (by simp [hy]))]
          rfl

theorem filterMap_map_some (l : List (String × FileAttrs)) :
    ((l.map (fun x => (x.1, some x.2))).filterMap
      (fun kv => kv.2.map (fun r => recordLine kv.1 r))) =
    l.map (fun x => recordLine x.1 x.2) := by
  induction l with
  | nil => rfl
  | cons x t ih => simp [List.filterMap_cons, ih]

/-- Folding the constructor's inserts over a strictly ascending entry list
(the order `std::map` iteration emits) reproduces the list itself. -/
theorem foldl_aset_sorted (pl : List (String × FileAttrs)) :
    ∀ acc : List (String × Option FileAttrs),
    List.Pairwise (fun x y => ¬ y.1 = x.1 ∧ sltb y.1 x.1 = false) pl →
    (∀ y ∈ pl, ∀ kv ∈ acc, ¬ y.1 = kv.1 ∧ sltb y.1 kv.1 = false) →
    pl.foldl (fun m nr => aset m nr.1 (some nr.2)) acc =
      acc ++ pl.map (fun x => (x.1, some x.2)) := by
  induction pl with
  | nil => intro acc _ _; simp
  | cons x t ih =>
      intro acc hpw hacc
      rw [List.foldl_cons]
      have hstep : aset acc x.1 (some x.2) = acc ++ [(x.1, some x.2)] := by
        apply aset_append_gt
        intro kv hkv
        exact hacc x (by simp) kv hkv
      rw [hstep]
      rw [ih (acc ++ [(x.1, some x.2)]) (List.pairwise_cons.mp hpw).2 ?_]
      · simp
      · intro y hy kv hkv
        rcases List.mem_append.mp hkv with hk1 | hk2
        · exact hacc y (by simp [hy]) kv hk1
        · simp only [List.mem_singleton] at hk2
          rw [hk2]
          exact (List.pairwise_cons.mp hpw).1 y hy

/-! ## C6: round-trip persistence -/

/-- C6 counterexample: a store whose single entry has the filename
`"a b"` — reachable via `setFileAttrs("/d/a b", ...)` — flushes to a line
whose `%s` read stops at the space: reloading yields the entry under the
truncated name `"a"`, not `"a b"`.  So the round trip does not hold for
every set of entries a store can hold. -/
theorem C6_counterexample :
    dbSpace.attrs = [("a b", some rSample)] ∧
    (mkDB (dbWrite hostDA dbSpace []).2 "/d").attrs =
      [("a", some rSample)] ∧
    ("a" : String) ≠ "a b" := by
  decide

/-- C6 (amended): for a store whose entries are all non-null records with
nonempty whitespace-free filenames and genuine 32-bit field values, held
in strictly ascending key order (the `std::map` representation), flushing
to the sidecar and loading a fresh store from it yields exactly the same
entries with the same mode, uid, gid and reserved values; `size`, `atime`
and `mtime` are not part of the line format and come back as the parse
leaves them (modelled 0). -/
theorem C6_roundtrip_amended (host : Host) (dbdir : String)
    (db : FileAttrDB) (disk : List (String × String))
    (l : List (String × FileAttrs))
    (hpath : db.dbpath = dbdir ++ "/.nfsd_fattrs")
    (hattrs : db.attrs = l.map (fun x => (x.1, some x.2)))
    (hne : l ≠ [])
    (hwk : host.writeOk db.dbpath = true)
    (hsorted : List.Pairwise (fun x y => ¬ y.1 = x.1 ∧ sltb y.1 x.1 = false) l)
    (hwf : ∀ x ∈ l, WFRec x.2 ∧ WFName x.1) :
    (mkDB (dbWrite host db disk).2 dbdir).attrs =
      l.map (fun x => (x.1, some (persistedFields x.2))) := by
  have hlen : db.attrs.length > 0 := by
    rw [hattrs]
    cases l with
    | nil => exact absurd rfl hne
    | cons x t => simp
  have hcontent : (writeLoop db.attrs).2 = linesOf l := by
    rw [(writeLoop_spec db.attrs).2, hattrs, filterMap_map_some]
    rfl
  have hdw : (dbWrite host db disk).2 =
      aset disk db.dbpath (String.mk (writeLoop db.attrs).2) := by
    unfold dbWrite
    simp [hlen, hwk]
  rw [hdw, hcontent]
  have hlook : alookup (aset disk db.dbpath (String.mk (linesOf l)))
      (dbdir ++ "/.nfsd_fattrs") = some (String.mk (linesOf l)) := by
    rw [← hpath]
    exact (alookup_aset _ _ _ _).trans (if_pos rfl)
  simp only [mkDB]
  rw [hlook]
  dsimp only
  show ((loadEntries (String.mk (linesOf l)).toList).foldl
      (fun m nr => aset m nr.1 (some nr.2)) []) = _
  have htl : (String.mk (linesOf l)).toList = linesOf l := rfl
  rw [htl]
  unfold loadEntries
  rw [loadLoop_lines l ((linesOf l).length + 1) (by omega) hwf]
  rw [foldl_aset_sorted _ [] ?_ ?_]
  · simp
  · rw [List.pairwise_map]
    exact hsorted
  · intro y hy kv hkv
    simp at hkv

/-- C6 witness: the amended round trip on a one-entry store. -/
theorem C6_roundtrip_amended_witness :
    (mkDB (dbWrite hostDA dbW6 []).2 "/d").attrs =
      [("a.txt", some (persistedFields rSample))] :=
  C6_roundtrip_amended hostDA "/d" dbW6 [] [("a.txt", rSample)]
    (by decide) rfl (by decide) (by decide) (by simp)
    (fun x hx => by
      simp only [List.mem_singleton] at hx
      subst hx
      exact ⟨⟨by decide, by decide, by decide, by decide, by decide⟩,
             by decide, by decide⟩)

end FT
